import Mathlib

/-!
Verification of the JWT (JSON Web Token) library: claims data model,
JWS compact serialization codec, HS256 signing/verification and the
constant-time comparator.  Rust strings are modelled as their UTF-8 byte
sequences (`List Nat`), so every operation below works on byte lists.
-/

namespace Jwt

/-- A byte string: the UTF-8 bytes of a Rust `str`/`String` or a raw
`Vec<u8>`/`[u8]`. -/
abbrev ByteStr := List Nat

/-! ## Constant-time comparator (src/lib.rs, `util::safe_cmp`) -/

/-- Loop of `safe_cmp`: `for i in 0..a.len() { r |= a[i] ^ b[i]; }` followed
by `r == 0`, expressed as recursion over the two (equal-length) lists. -/
def safe_cmp_loop : List Nat → List Nat → Nat → Bool
  | [], _, r => r == 0
  | _ :: _, [], r => r == 0
  | x :: xs, y :: ys, r => safe_cmp_loop xs ys (r ||| (x ^^^ y))

/-- `util::safe_cmp` from src/lib.rs: length check, then a running bitwise
OR of byte-wise XORs over the whole sequence, true iff the accumulator is
zero. -/
def safe_cmp (a b : List Nat) : Bool :=
  if a.length ≠ b.length then false
  else safe_cmp_loop a b 0

/-! ## base64url codec

Modelled from the spec: the URL-safe base64 codec consumed as an external
collaborator (spec sec. 6): `encode(bytes) -> text` total, without padding,
`decode(text) -> bytes` failing on any byte outside the URL-safe alphabet
or on an impossible length. -/

/-- Character (byte) of the URL-safe base64 alphabet for a 6-bit value:
`A-Z`, `a-z`, `0-9`, `-`, `_`. -/
def b64char (n : Nat) : Nat :=
  if n < 26 then 65 + n
  else if n < 52 then 97 + (n - 26)
  else if n < 62 then 48 + (n - 52)
  else if n = 62 then 45
  else if n = 63 then 95
  else 65

/-- Inverse alphabet lookup: 6-bit value of a base64url character, `none`
for a byte outside the alphabet. -/
def from_b64char (c : Nat) : Option Nat :=
  if 65 ≤ c ∧ c ≤ 90 then some (c - 65)
  else if 97 ≤ c ∧ c ≤ 122 then some (26 + (c - 97))
  else if 48 ≤ c ∧ c ≤ 57 then some (52 + (c - 48))
  else if c = 45 then some 62
  else if c = 95 then some 63
  else none

/-- base64url encoding without padding: groups of three bytes become four
alphabet characters, a final group of one or two bytes becomes two or
three characters. -/
def to_base64 : List Nat → List Nat
  | [] => []
  | [b0] => [b64char (b0 / 4), b64char (b0 % 4 * 16)]
  | [b0, b1] =>
      [b64char (b0 / 4), b64char (b0 % 4 * 16 + b1 / 16), b64char (b1 % 16 * 4)]
  | b0 :: b1 :: b2 :: rest =>
      b64char (b0 / 4) :: b64char (b0 % 4 * 16 + b1 / 16) ::
      b64char (b1 % 16 * 4 + b2 / 64) :: b64char (b2 % 64) :: to_base64 rest

/-- Map every character through the inverse alphabet, failing if any byte
is outside the alphabet. -/
def sextets : List Nat → Option (List Nat)
  | [] => some []
  | c :: r =>
    match from_b64char c with
    | none => none
    | some v => (sextets r).map (fun vs => v :: vs)

/-- Reassemble bytes from 6-bit values: four values give three bytes, a
final group of two or three values gives one or two bytes, a lone final
value is an invalid length. -/
def unsextet : List Nat → Option (List Nat)
  | [] => some []
  | [_] => none
  | [s0, s1] => some [s0 * 4 + s1 / 16]
  | [s0, s1, s2] => some [s0 * 4 + s1 / 16, s1 % 16 * 16 + s2 / 4]
  | s0 :: s1 :: s2 :: s3 :: rest =>
      (unsextet rest).map (fun bs =>
        (s0 * 4 + s1 / 16) :: (s1 % 16 * 16 + s2 / 4) :: (s2 % 4 * 64 + s3) :: bs)

/-- base64url decoding: alphabet lookup then bit reassembly. -/
def from_base64 (s : List Nat) : Option (List Nat) :=
  (sextets s).bind unsextet

/-! ## UTF-8 validity

Modelled from the spec: `str::from_utf8` validity of a byte sequence
(well-formed UTF-8: no overlong forms, no surrogates, max U+10FFFF),
used by decode step 6. -/

/-- Is a byte a UTF-8 continuation byte (`0x80..0xBF`)? -/
def isCont (b : Nat) : Bool := 128 ≤ b && b ≤ 191

mutual

/-- Strict UTF-8 well-formedness of a byte sequence, following the
standard byte-range table (RFC 3629): dispatch on the lead byte, then
check the continuation bytes of that range. -/
def isValidUtf8 : List Nat → Bool
  | [] => true
  | b :: rest =>
    if b < 128 then isValidUtf8 rest
    else if 194 ≤ b && b ≤ 223 then utf8Cont1 rest
    else if b = 224 then utf8ContE0 rest
    else if (225 ≤ b && b ≤ 236) || b = 238 || b = 239 then utf8Cont2 rest
    else if b = 237 then utf8ContED rest
    else if b = 240 then utf8ContF0 rest
    else if 241 ≤ b && b ≤ 243 then utf8Cont3 rest
    else if b = 244 then utf8ContF4 rest
    else false

/-- One continuation byte (lead bytes `0xC2..0xDF`). -/
def utf8Cont1 : List Nat → Bool
  | c1 :: r => isCont c1 && isValidUtf8 r
  | _ => false

/-- Continuations of lead byte `0xE0` (first restricted to `0xA0..0xBF`). -/
def utf8ContE0 : List Nat → Bool
  | c1 :: c2 :: r => (160 ≤ c1 && c1 ≤ 191) && isCont c2 && isValidUtf8 r
  | _ => false

/-- Two continuation bytes (lead bytes `0xE1..0xEC`, `0xEE`, `0xEF`). -/
def utf8Cont2 : List Nat → Bool
  | c1 :: c2 :: r => isCont c1 && isCont c2 && isValidUtf8 r
  | _ => false

/-- Continuations of lead byte `0xED` (first restricted to `0x80..0x9F`,
excluding surrogates). -/
def utf8ContED : List Nat → Bool
  | c1 :: c2 :: r => (128 ≤ c1 && c1 ≤ 159) && isCont c2 && isValidUtf8 r
  | _ => false

/-- Continuations of lead byte `0xF0` (first restricted to `0x90..0xBF`). -/
def utf8ContF0 : List Nat → Bool
  | c1 :: c2 :: c3 :: r => (144 ≤ c1 && c1 ≤ 191) && isCont c2 && isCont c3 && isValidUtf8 r
  | _ => false

/-- Three continuation bytes (lead bytes `0xF1..0xF3`). -/
def utf8Cont3 : List Nat → Bool
  | c1 :: c2 :: c3 :: r => isCont c1 && isCont c2 && isCont c3 && isValidUtf8 r
  | _ => false

/-- Continuations of lead byte `0xF4` (first restricted to `0x80..0x8F`,
capping at U+10FFFF). -/
def utf8ContF4 : List Nat → Bool
  | c1 :: c2 :: c3 :: r => (128 ≤ c1 && c1 ≤ 143) && isCont c2 && isCont c3 && isValidUtf8 r
  | _ => false

end

/-- UTF-8 byte sequence of a Unicode scalar value. -/
def utf8Bytes (n : Nat) : List Nat :=
  if n < 128 then [n]
  else if n < 2048 then [192 + n / 64, 128 + n % 64]
  else if n < 65536 then [224 + n / 4096, 128 + n / 64 % 64, 128 + n % 64]
  else [240 + n / 262144, 128 + n / 4096 % 64, 128 + n / 64 % 64, 128 + n % 64]

/-! ## splitn (decode step 1)

`input.splitn(3, '.')` from src/jws.rs: split on `.` (byte 46) into at
most `n` parts from the left, the last part keeping any remaining
separators. -/

/-- Split a byte string at the first occurrence of `sep`, if any. -/
def splitFirst (sep : Nat) : List Nat → Option (List Nat × List Nat)
  | [] => none
  | c :: r =>
    if c = sep then some ([], r)
    else
      match splitFirst sep r with
      | none => none
      | some (pre, post) => some (c :: pre, post)

/-- `str::splitn`: at most `n` parts, splitting from the left. -/
def splitn : Nat → Nat → List Nat → List (List Nat)
  | 0, _, _ => []
  | 1, _, s => [s]
  | m + 2, sep, s =>
    match splitFirst sep s with
    | none => [s]
    | some (pre, post) => pre :: splitn (m + 1) sep post

/-! ## JSON value model

Modelled from the spec: the JSON value model consumed as an external
collaborator (spec sec. 6): a tagged union of null / bool / number /
string / array-of-value / object-of-(string to value), with
parse-from-text and serialize-to-compact-text operations.  Objects are
the spec's ordered mapping (sec. 3): an association list strictly ordered
by key, keys unique.  Numbers are integers; floating point values are out
of scope of this embedding. -/

inductive Json where
  | null : Json
  | boolean : Bool → Json
  | num : Int → Json
  | str : ByteStr → Json
  | arr : List Json → Json
  | obj : List (ByteStr × Json) → Json

/-- `Json::as_string`: the string if the value is a string, else none. -/
def Json.as_string : Json → Option ByteStr
  | .str s => some s
  | _ => none

/-- `Json::as_array`: the element list if the value is an array, else none. -/
def Json.as_array : Json → Option (List Json)
  | .arr xs => some xs
  | _ => none

/-- `Json::as_object`: the key/value mapping if the value is an object,
else none. -/
def Json.as_object : Json → Option (List (ByteStr × Json))
  | .obj o => some o
  | _ => none

/-- Lexicographic (byte-wise) strict order on byte strings: the `Ord` of
Rust `String` used by the ordered claims map. -/
def strLt : ByteStr → ByteStr → Bool
  | [], [] => false
  | [], _ :: _ => true
  | _ :: _, [] => false
  | a :: as_, b :: bs => if a < b then true else if a = b then strLt as_ bs else false

/-- Ordered-map lookup on the association list. -/
def objGet (k : ByteStr) : List (ByteStr × Json) → Option Json
  | [] => none
  | (k2, v) :: r => if k = k2 then some v else objGet k r

/-- Ordered-map insert: place the pair at its position in key order,
replacing the value under an equal key. -/
def objInsert (k : ByteStr) (v : Json) : List (ByteStr × Json) → List (ByteStr × Json)
  | [] => [(k, v)]
  | (k2, v2) :: rest =>
    if strLt k k2 then (k, v) :: (k2, v2) :: rest
    else if k = k2 then (k, v) :: rest
    else (k2, v2) :: objInsert k v rest

/-- Ordered-map removal by key. -/
def objRemove (k : ByteStr) : List (ByteStr × Json) → List (ByteStr × Json)
  | [] => []
  | (k2, v2) :: rest => if k = k2 then rest else (k2, v2) :: objRemove k rest

/-- Keys strictly ascending in `strLt` order (the BTreeMap invariant of
the spec's ordered mapping). -/
def objSorted : List (ByteStr × Json) → Bool
  | [] => true
  | [_] => true
  | (k1, _) :: (k2, v2) :: r => strLt k1 k2 && objSorted ((k2, v2) :: r)

/-! ### Compact serialization (`Json` to compact text) -/

/-- Decimal ASCII digits of a natural number, most significant first. -/
def natDecimal (n : Nat) : List Nat :=
  if n = 0 then [48] else ((Nat.digits 10 n).reverse).map (fun d => 48 + d)

/-- Decimal ASCII rendering of an integer. -/
def intDecimal : Int → List Nat
  | .ofNat n => natDecimal n
  | .negSucc m => 45 :: natDecimal (m + 1)

/-- Lowercase hexadecimal digit character for a value below 16. -/
def hexDigit (n : Nat) : Nat := if n < 10 then 48 + n else 87 + n

/-- JSON string escaping of one byte: quote and backslash escaped, the
named control escapes, other control bytes as a u-escape, everything else
passed through. -/
def escByte (b : Nat) : List Nat :=
  if b = 34 then [92, 34]
  else if b = 92 then [92, 92]
  else if b = 8 then [92, 98]
  else if b = 9 then [92, 116]
  else if b = 10 then [92, 110]
  else if b = 12 then [92, 102]
  else if b = 13 then [92, 114]
  else if b < 32 then [92, 117, 48, 48, hexDigit (b / 16), hexDigit (b % 16)]
  else [b]

/-- JSON string escaping of string contents. -/
def escapeStr : ByteStr → List Nat
  | [] => []
  | b :: r => escByte b ++ escapeStr r

mutual

/-- Serialize a JSON value to compact JSON text (no whitespace), as the
spec's serialize-to-compact-text operation. -/
def printJson : Json → List Nat
  | .null => [110, 117, 108, 108]
  | .boolean true => [116, 114, 117, 101]
  | .boolean false => [102, 97, 108, 115, 101]
  | .num n => intDecimal n
  | .str s => 34 :: (escapeStr s ++ [34])
  | .arr [] => [91, 93]
  | .arr (x :: xs) => 91 :: (printJson x ++ printElems xs ++ [93])
  | .obj [] => [123, 125]
  | .obj ((k, v) :: r) =>
      123 :: ((34 :: (escapeStr k ++ [34, 58])) ++ printJson v ++ printMembers r ++ [125])

/-- Remaining array elements, each preceded by a comma. -/
def printElems : List Json → List Nat
  | [] => []
  | x :: xs => 44 :: (printJson x ++ printElems xs)

/-- Remaining object members, each preceded by a comma. -/
def printMembers : List (ByteStr × Json) → List Nat
  | [] => []
  | (k, v) :: r => 44 :: ((34 :: (escapeStr k ++ [34, 58])) ++ printJson v ++ printMembers r)

end

/-! ### Parsing (compact text to `Json`) -/

/-- Is a byte an ASCII decimal digit? -/
def isDigit (c : Nat) : Bool := 48 ≤ c && c ≤ 57

/-- Value of a hexadecimal digit character, `none` otherwise. -/
def hexVal (c : Nat) : Option Nat :=
  if 48 ≤ c ∧ c ≤ 57 then some (c - 48)
  else if 97 ≤ c ∧ c ≤ 102 then some (c - 87)
  else if 65 ≤ c ∧ c ≤ 70 then some (c - 55)
  else none

/-- Greedy decimal scan: consume leading digits into the accumulator,
returning the value and the unconsumed remainder. -/
def parseNat (acc : Nat) : List Nat → Nat × List Nat
  | [] => (acc, [])
  | c :: r => if isDigit c then parseNat (acc * 10 + (c - 48)) r else (acc, c :: r)

mutual

/-- Parse JSON string contents after the opening quote, handling the
escape sequences, up to and including the closing quote. -/
def parseStringAux : List Nat → Option (ByteStr × List Nat)
  | [] => none
  | c :: r =>
    if c = 34 then some ([], r)
    else if c = 92 then parseEscape r
    else (parseStringAux r).map (fun p => (c :: p.1, p.2))
termination_by s => s.length

/-- Parse the character after a backslash: the named escapes or a
`u`-escape. -/
def parseEscape : List Nat → Option (ByteStr × List Nat)
  | [] => none
  | e :: r2 =>
    if e = 34 ∨ e = 92 ∨ e = 47 then
      (parseStringAux r2).map (fun p => (e :: p.1, p.2))
    else if e = 98 then (parseStringAux r2).map (fun p => (8 :: p.1, p.2))
    else if e = 116 then (parseStringAux r2).map (fun p => (9 :: p.1, p.2))
    else if e = 110 then (parseStringAux r2).map (fun p => (10 :: p.1, p.2))
    else if e = 102 then (parseStringAux r2).map (fun p => (12 :: p.1, p.2))
    else if e = 114 then (parseStringAux r2).map (fun p => (13 :: p.1, p.2))
    else if e = 117 then parseUEscape r2
    else none
termination_by s => s.length

/-- Parse the four hex digits of a `u`-escape; escapes of surrogate code
points are rejected. -/
def parseUEscape : List Nat → Option (ByteStr × List Nat)
  | h1 :: h2 :: h3 :: h4 :: r3 =>
    (hexVal h1).bind fun v1 =>
    (hexVal h2).bind fun v2 =>
    (hexVal h3).bind fun v3 =>
    (hexVal h4).bind fun v4 =>
    if 55296 ≤ v1 * 4096 + v2 * 256 + v3 * 16 + v4 ∧
       v1 * 4096 + v2 * 256 + v3 * 16 + v4 < 57344 then none
    else (parseStringAux r3).map
      (fun p => (utf8Bytes (v1 * 4096 + v2 * 256 + v3 * 16 + v4) ++ p.1, p.2))
  | _ => none
termination_by s => s.length

end

/-- `null` keyword tail. -/
def parseNull : List Nat → Option (Json × List Nat)
  | 117 :: 108 :: 108 :: r2 => some (.null, r2)
  | _ => none

/-- `true` keyword tail. -/
def parseTrue : List Nat → Option (Json × List Nat)
  | 114 :: 117 :: 101 :: r2 => some (.boolean true, r2)
  | _ => none

/-- `false` keyword tail. -/
def parseFalse : List Nat → Option (Json × List Nat)
  | 97 :: 108 :: 115 :: 101 :: r2 => some (.boolean false, r2)
  | _ => none

/-- Negative number tail (after the minus sign). -/
def parseNeg : List Nat → Option (Json × List Nat)
  | [] => none
  | d :: r2 =>
    if isDigit d then
      let p := parseNat (d - 48) r2
      some (.num (-(p.1 : Int)), p.2)
    else none

mutual

/-- Parse one JSON value from compact text.  The fuel argument bounds the
number of sub-values parsed; every recursive call decrements it. -/
def parseValue : Nat → List Nat → Option (Json × List Nat)
  | 0, _ => none
  | _ + 1, [] => none
  | f + 1, c :: r =>
    if c = 110 then parseNull r
    else if c = 116 then parseTrue r
    else if c = 102 then parseFalse r
    else if c = 34 then (parseStringAux r).map (fun p => (.str p.1, p.2))
    else if c = 45 then parseNeg r
    else if isDigit c then
      let p := parseNat (c - 48) r
      some (.num (p.1 : Int), p.2)
    else if c = 91 then parseArrBody f r
    else if c = 123 then parseObjBody f r
    else none
termination_by f _ => (f, 0)

/-- Array tail after the opening bracket: empty array or element list. -/
def parseArrBody : Nat → List Nat → Option (Json × List Nat)
  | _, [] => none
  | f, d :: r2 =>
    if d = 93 then some (.arr [], r2)
    else (parseElems f (d :: r2)).map (fun p => (Json.arr p.1, p.2))
termination_by f _ => (f, 2)

/-- Object tail after the opening brace: empty object or member list. -/
def parseObjBody : Nat → List Nat → Option (Json × List Nat)
  | _, [] => none
  | f, d :: r2 =>
    if d = 125 then some (.obj [], r2)
    else (parseMembers f [] (d :: r2)).map (fun p => (Json.obj p.1, p.2))
termination_by f _ => (f, 2)

/-- Parse one or more comma-separated array elements followed by the
closing bracket. -/
def parseElems : Nat → List Nat → Option (List Json × List Nat)
  | 0, _ => none
  | f + 1, s =>
    match parseValue f s with
    | none => none
    | some (v, rest) =>
      match rest with
      | [] => none
      | d :: r2 =>
        if d = 44 then (parseElems f r2).map (fun p => (v :: p.1, p.2))
        else if d = 93 then some ([v], r2)
        else none
termination_by f _ => (f, 1)

/-- Parse one or more comma-separated object members followed by the
closing brace, inserting each member into the ordered map as the spec's
object builder does. -/
def parseMembers : Nat → List (ByteStr × Json) → List Nat → Option (List (ByteStr × Json) × List Nat)
  | 0, _, _ => none
  | _ + 1, _, [] => none
  | f + 1, acc, c :: r =>
    if c = 34 then
      match parseStringAux r with
      | none => none
      | some (k, r2) =>
        match r2 with
        | [] => none
        | d :: r3 =>
          if d = 58 then
            match parseValue f r3 with
            | none => none
            | some (v, rest) =>
              match rest with
              | [] => none
              | d2 :: r4 =>
                if d2 = 44 then parseMembers f (objInsert k v acc) r4
                else if d2 = 125 then some (objInsert k v acc, r4)
                else none
          else none
    else none
termination_by f _ _ => (f, 1)

end

/-- `json::from_str`: parse a whole byte string as one JSON value, failing
on trailing input. -/
def json_from_str (s : List Nat) : Option Json :=
  match parseValue (s.length + 1) s with
  | some (v, []) => some v
  | _ => none

/-! ## HMAC-SHA256

Modelled from the spec: the HMAC-SHA256 primitive consumed as an external
collaborator (spec sec. 6): `compute(key, message) -> 32-byte tag`,
deterministic and total.  The primitive is the public FIPS 180-4 /
RFC 2104 algorithm, implemented here over byte lists with 32-bit words
as naturals reduced modulo `2 ^ 32`. -/

/-- Truncate to a 32-bit word. -/
def w32 (n : Nat) : Nat := n % 4294967296

/-- Right rotation of a 32-bit word. -/
def rotr (k x : Nat) : Nat := w32 (x >>> k ||| x <<< (32 - k))

/-- SHA-256 big sigma-0. -/
def bs0 (x : Nat) : Nat := rotr 2 x ^^^ rotr 13 x ^^^ rotr 22 x

/-- SHA-256 big sigma-1. -/
def bs1 (x : Nat) : Nat := rotr 6 x ^^^ rotr 11 x ^^^ rotr 25 x

/-- SHA-256 small sigma-0. -/
def ss0 (x : Nat) : Nat := rotr 7 x ^^^ rotr 18 x ^^^ x >>> 3

/-- SHA-256 small sigma-1. -/
def ss1 (x : Nat) : Nat := rotr 17 x ^^^ rotr 19 x ^^^ x >>> 10

/-- SHA-256 choose function. -/
def ch (x y z : Nat) : Nat := x &&& y ^^^ (w32 (2 ^ 32 - 1 - x) &&& z)

/-- SHA-256 majority function. -/
def maj (x y z : Nat) : Nat := x &&& y ^^^ (x &&& z) ^^^ (y &&& z)

/-- SHA-256 round constants: fractional parts of the cube roots of the
first 64 primes. -/
def sha256K : List Nat :=
  [1116352408, 1899447441, 3049323471, 3921009573, 961987163, 1508970993,
   2453635748, 2870763221, 3624381080, 310598401, 607225278, 1426881987,
   1925078388, 2162078206, 2614888103, 3248222580, 3835390401, 4022224774,
   264347078, 604807628, 770255983, 1249150122, 1555081692, 1996064986,
   2554220882, 2821834349, 2952996808, 3210313671, 3336571891, 3584528711,
   113926993, 338241895, 666307205, 773529912, 1294757372, 1396182291,
   1695183700, 1986661051, 2177026350, 2456956037, 2730485921, 2820302411,
   3259730800, 3345764771, 3516065817, 3600352804, 4094571909, 275423344,
   430227734, 506948616, 659060556, 883997877, 958139571, 1322822218,
   1537002063, 1747873779, 1955562222, 2024104815, 2227730452, 2361852424,
   2428436474, 2756734187, 3204031479, 3329325298]

/-- SHA-256 working state: eight 32-bit words. -/
structure Sha256State where
  a : Nat
  b : Nat
  c : Nat
  d : Nat
  e : Nat
  f : Nat
  g : Nat
  h : Nat

/-- Initial hash value: fractional parts of the square roots of the first
eight primes. -/
def sha256H0 : Sha256State :=
  ⟨1779033703, 3144134277, 1013904242, 2773480762,
   1359893119, 2600822924, 528734635, 1541459225⟩

/-- One round of the SHA-256 compression function; the argument is the
already-summed `K[i] + W[i]`. -/
def sha256Round (st : Sha256State) (kw : Nat) : Sha256State :=
  let t1 := w32 (st.h + bs1 st.e + ch st.e st.f st.g + kw)
  let t2 := w32 (bs0 st.a + maj st.a st.b st.c)
  ⟨w32 (t1 + t2), st.a, st.b, st.c, w32 (st.d + t1), st.e, st.f, st.g⟩

/-- Message-schedule extension: append words 16..63 to the 16 block
words. -/
def extendW (ws : List Nat) : Nat → List Nat
  | 0 => ws
  | n + 1 =>
    let l := ws.length
    let nw := w32 (ss1 (ws.getD (l - 2) 0) + ws.getD (l - 7) 0 +
                   ss0 (ws.getD (l - 15) 0) + ws.getD (l - 16) 0)
    extendW (ws ++ [nw]) n

/-- Compress one 16-word block into the chaining state. -/
def sha256Block (st : Sha256State) (block : List Nat) : Sha256State :=
  let ws := extendW block 48
  let kw := (List.zip sha256K ws).map (fun p => w32 (p.1 + p.2))
  let fin := kw.foldl sha256Round st
  ⟨w32 (st.a + fin.a), w32 (st.b + fin.b), w32 (st.c + fin.c), w32 (st.d + fin.d),
   w32 (st.e + fin.e), w32 (st.f + fin.f), w32 (st.g + fin.g), w32 (st.h + fin.h)⟩

/-- Big-endian 4-byte rendering of a 32-bit word. -/
def wordBytes (x : Nat) : List Nat :=
  [x / 16777216 % 256, x / 65536 % 256, x / 256 % 256, x % 256]

/-- Serialize the final state to the 32-byte digest. -/
def sha256Digest (st : Sha256State) : List Nat :=
  wordBytes st.a ++ wordBytes st.b ++ wordBytes st.c ++ wordBytes st.d ++
  wordBytes st.e ++ wordBytes st.f ++ wordBytes st.g ++ wordBytes st.h

/-- Merkle-Damgard padding: append `0x80`, zeros to 56 mod 64, and the
bit length as 8 big-endian bytes. -/
def sha256Pad (msg : List Nat) : List Nat :=
  let len := msg.length
  let k := (119 - len % 64) % 64
  msg ++ [128] ++ List.replicate k 0 ++
  [len * 8 / 72057594037927936 % 256, len * 8 / 281474976710656 % 256,
   len * 8 / 1099511627776 % 256, len * 8 / 4294967296 % 256,
   len * 8 / 16777216 % 256, len * 8 / 65536 % 256,
   len * 8 / 256 % 256, len * 8 % 256]

/-- Group bytes into 32-bit big-endian words. -/
def toWords : List Nat → List Nat
  | b0 :: b1 :: b2 :: b3 :: rest =>
      (b0 * 16777216 + b1 * 65536 + b2 * 256 + b3) :: toWords rest
  | _ => []

/-- Group a padded message into 16-word blocks; the fuel is an upper
bound on the number of blocks. -/
def toBlocksAux : Nat → List Nat → List (List Nat)
  | 0, _ => []
  | n + 1, bs =>
    if bs = [] then []
    else toWords (bs.take 64) :: toBlocksAux n (bs.drop 64)

/-- Group a padded message into 16-word blocks. -/
def toBlocks (bs : List Nat) : List (List Nat) :=
  toBlocksAux bs.length bs

/-- SHA-256 of a byte sequence. -/
def sha256 (msg : List Nat) : List Nat :=
  sha256Digest ((toBlocks (sha256Pad msg)).foldl sha256Block sha256H0)

/-- HMAC-SHA256 (RFC 2104): keys longer than the 64-byte block are first
hashed, the key is zero-padded to the block size, and the tag is
`H((K xor opad) ++ H((K xor ipad) ++ msg))`. -/
def hmacSha256 (key msg : List Nat) : List Nat :=
  let k0 := if 64 < key.length then sha256 key else key
  let kpad := k0 ++ List.replicate (64 - k0.length) 0
  sha256 ((kpad.map (fun b => b ^^^ 92)) ++
          sha256 ((kpad.map (fun b => b ^^^ 54)) ++ msg))

/-! ## Claims (src/claims.rs) -/

/-- A set of JWT claims: the raw ordered mapping from claim name to JSON
value (`pub raw: BTreeMap<String, json::Json>`). -/
structure Claims where
  raw : List (ByteStr × Json)

/-- `Claims::new`: the empty claim set. -/
def Claims.new : Claims := ⟨[]⟩

/-- `Claims::get`: the value of a claim, if present. -/
def Claims.get (c : Claims) (key : ByteStr) : Option Json :=
  objGet key c.raw

/-- `Claims::insert_unsafe`: insert or overwrite a claim. -/
def Claims.insert_unsafe (c : Claims) (key : ByteStr) (value : Json) : Claims :=
  ⟨objInsert key value c.raw⟩

/-- `Claims::remove`: remove a claim. -/
def Claims.remove (c : Claims) (key : ByteStr) : Claims :=
  ⟨objRemove key c.raw⟩

/-- The bytes of `"iss"`. -/
def issKey : ByteStr := [105, 115, 115]

/-- The bytes of `"sub"`. -/
def subKey : ByteStr := [115, 117, 98]

/-- The bytes of `"aud"`. -/
def audKey : ByteStr := [97, 117, 100]

/-- The bytes of `"jti"`. -/
def jtiKey : ByteStr := [106, 116, 105]

/-- `Claims::iss`: the issuer claim as a string, if present and a string. -/
def Claims.iss (c : Claims) : Option ByteStr :=
  (objGet issKey c.raw).bind Json.as_string

/-- `Claims::sub`: the subject claim as a string, if present and a string. -/
def Claims.sub (c : Claims) : Option ByteStr :=
  (objGet subKey c.raw).bind Json.as_string

/-- `Claims::jti`: the JWT ID claim as a string, if present and a string. -/
def Claims.jti (c : Claims) : Option ByteStr :=
  (objGet jtiKey c.raw).bind Json.as_string

/-- The member loop of `Claims::aud`: every element as a string, `none`
as soon as one element is not a string. -/
def collectStrings : List Json → Option (List ByteStr)
  | [] => some []
  | x :: xs =>
    match x.as_string with
    | some s => (collectStrings xs).map (fun v => s :: v)
    | none => none

/-- `Claims::aud`: the audience claim as a list of strings; `none` when
absent, not an array, or any element is not a string. -/
def Claims.aud (c : Claims) : Option (List ByteStr) :=
  (objGet audKey c.raw).bind (fun a => a.as_array.bind collectStrings)

/-- `ToJson for Claims`: the JSON object of the raw mapping. -/
def Claims.to_json (c : Claims) : Json := .obj c.raw

/-- `ToBase64 for Claims` (URL_SAFE config): base64url of the compact
JSON text of the claims. -/
def Claims.to_base64 (c : Claims) : List Nat :=
  Jwt.to_base64 (printJson c.to_json)

/-! ## JWS codec (src/jws.rs) -/

/-- The two decode failures: not in JWS Compact Serialization format, or
signature validation failed. -/
inductive DecodeError where
  | Malformed : DecodeError
  | InvalidSignature : DecodeError
deriving DecidableEq

/-- `encode_generic`: the header, a dot, the base64url claims payload,
then a dot and the base64url signature of everything before it. -/
def encode_generic (claims : Claims) (header : List Nat) (sign : List Nat → List Nat) : List Nat :=
  let res := header ++ 46 :: claims.to_base64
  res ++ 46 :: to_base64 (sign res)

/-- `decode_generic`: split into three dot-separated parts, base64-decode
the signature, recompute the signature over the raw first two segments,
compare in constant time, and only then base64/UTF-8/JSON-decode the
payload into a claims object. -/
def decode_generic (input : List Nat) (sign : List Nat → List Nat → List Nat) :
    Except DecodeError Claims :=
  match splitn 3 46 input with
  | [p0, p1, p2] =>
    match from_base64 p2 with
    | none => .error .Malformed
    | some sig_bytes =>
      let computed_sig := sign p0 p1
      if safe_cmp sig_bytes computed_sig = false then .error .InvalidSignature
      else
        match from_base64 p1 with
        | none => .error .Malformed
        | some payload_bytes =>
          if isValidUtf8 payload_bytes = false then .error .Malformed
          else
            match json_from_str payload_bytes with
            | none => .error .Malformed
            | some payload =>
              match payload.as_object with
              | none => .error .Malformed
              | some raw => .ok ⟨raw⟩
  | _ => .error .Malformed

namespace hs256

/-- The fixed HS256 header constant: base64url of the literal JSON text
of the object announcing alg HS256 and typ JWT. -/
def HEADER : List Nat :=
  [101, 121, 74, 104, 98, 71, 99, 105, 79, 105, 74, 73, 85, 122, 73, 49,
   78, 105, 73, 115, 73, 110, 82, 53, 99, 67, 73, 54, 73, 107, 112, 88,
   86, 67, 74, 57]

/-- `hs256::encode`: encode a set of claims and sign with HMAC-SHA256. -/
def encode (claims : Claims) (key : List Nat) : List Nat :=
  encode_generic claims HEADER (fun input => hmacSha256 key input)

/-- `hs256::decode`: decode a JWT signed with HMAC-SHA256; the verifier
MACs `header64 ++ "." ++ payload64`. -/
def decode (input : List Nat) (key : List Nat) : Except DecodeError Claims :=
  decode_generic input (fun header64 payload64 =>
    hmacSha256 key (header64 ++ 46 :: payload64))

end hs256

/-! ## Well-formedness and size of JSON values -/

mutual

/-- Well-formedness of a JSON value as produced by the Rust types: every
string is valid UTF-8 (Rust `String`), every object is an ordered map
with strictly ascending keys (Rust `BTreeMap`). -/
def jsonWF : Json → Bool
  | .null => true
  | .boolean _ => true
  | .num _ => true
  | .str s => isValidUtf8 s
  | .arr xs => jsonListWF xs
  | .obj o => objSorted o && jsonObjWF o

/-- Well-formedness of a list of JSON values. -/
def jsonListWF : List Json → Bool
  | [] => true
  | x :: xs => jsonWF x && jsonListWF xs

/-- Well-formedness of the members of a JSON object. -/
def jsonObjWF : List (ByteStr × Json) → Bool
  | [] => true
  | (k, v) :: r => isValidUtf8 k && jsonWF v && jsonObjWF r

end

/-- Well-formedness of a Claims set: exactly the invariants the Rust
types (`BTreeMap<String, Json>`) maintain automatically. -/
def ClaimsWF (c : Claims) : Bool := jsonWF (.obj c.raw)

mutual

/-- Number of syntactic nodes of a JSON value (a fuel bound for the
parser). -/
def sizeJ : Json → Nat
  | .null => 1
  | .boolean _ => 1
  | .num _ => 1
  | .str _ => 1
  | .arr xs => 1 + sizeL xs
  | .obj o => 1 + sizeO o

/-- Fuel bound for a list of array elements. -/
def sizeL : List Json → Nat
  | [] => 0
  | x :: xs => 1 + sizeJ x + sizeL xs

/-- Fuel bound for a list of object members. -/
def sizeO : List (ByteStr × Json) → Nat
  | [] => 0
  | (_, v) :: r => 1 + sizeJ v + sizeO r

end

/-! ## Concrete fixtures (from the repository's tests) -/

/-- The bytes of the literal JSON text of the HS256 header object,
announcing alg HS256 and typ JWT. -/
def headerJsonText : List Nat :=
  [123, 34, 97, 108, 103, 34, 58, 34, 72, 83, 50, 53, 54, 34, 44, 34,
   116, 121, 112, 34, 58, 34, 74, 87, 84, 34, 125]

/-- The claims set of the repository's tests: a private claim
`com.example.my` mapped to `"value"` and `sub` mapped to
`"urn:someone"`. -/
def testClaims : Claims :=
  ⟨[([99, 111, 109, 46, 101, 120, 97, 109, 112, 108, 101, 46, 109, 121],
     .str [118, 97, 108, 117, 101]),
    ([115, 117, 98], .str [117, 114, 110, 58, 115, 111, 109, 101, 111, 110, 101])]⟩

/-- The bytes of the test key `secret`. -/
def secretKey : List Nat := [115, 101, 99, 114, 101, 116]

/-- A 65-byte key, longer than the HMAC-SHA256 block size. -/
def longKey : List Nat := List.replicate 65 0

/-- The SHA-256 digest of `longKey`: a distinct key that HMAC-SHA256 maps
to the same MAC function, because keys longer than the block size are
hashed first. -/
def collidingKey : List Nat := sha256 longKey

/-! ## Lemmas: constant-time comparator -/

theorem or_eq_zero_iff (m n : Nat) : m ||| n = 0 ↔ m = 0 ∧ n = 0 := by
  constructor
  · intro h
    constructor
    · apply Nat.eq_of_testBit_eq
      intro i
      have hb := congrArg (fun x => Nat.testBit x i) h
      simp [Nat.testBit_or] at hb
      simp [hb.1]
    · apply Nat.eq_of_testBit_eq
      intro i
      have hb := congrArg (fun x => Nat.testBit x i) h
      simp [Nat.testBit_or] at hb
      simp [hb.2]
  · rintro ⟨rfl, rfl⟩; rfl

theorem safe_cmp_loop_iff :
    ∀ (a b : List Nat) (r : Nat), a.length = b.length →
      (safe_cmp_loop a b r = true ↔ (r = 0 ∧ a = b)) := by
  intro a
  induction a with
  | nil =>
    intro b r h
    cases b with
    | nil => simp [safe_cmp_loop]
    | cons y ys => simp at h
  | cons x xs ih =>
    intro b r h
    cases b with
    | nil => simp at h
    | cons y ys =>
      rw [safe_cmp_loop, ih ys _ (by simpa using h), or_eq_zero_iff, Nat.xor_eq_zero]
      simp only [List.cons.injEq]
      tauto

theorem safe_cmp_iff (a b : List Nat) : safe_cmp a b = true ↔ a = b := by
  unfold safe_cmp
  by_cases h : a.length = b.length
  · simp only [h, ne_eq, not_true_eq_false, if_false]
    rw [safe_cmp_loop_iff a b 0 h]
    simp
  · simp only [ne_eq, h, not_false_eq_true, if_true]
    constructor
    · intro hf; exact absurd hf (by simp)
    · intro hab; exact absurd (hab ▸ rfl) h

theorem safe_cmp_self (a : List Nat) : safe_cmp a a = true :=
  (safe_cmp_iff a a).mpr rfl

theorem safe_cmp_length_ne (a b : List Nat) (h : a.length ≠ b.length) :
    safe_cmp a b = false := by
  unfold safe_cmp
  simp [h]

/-! ## Lemmas: base64url codec -/

theorem from_b64char_b64char : ∀ n, n < 64 → from_b64char (b64char n) = some n := by
  decide

theorem b64char_ne_dot (n : Nat) : b64char n ≠ 46 := by
  unfold b64char
  iterate 4 (split <;> try omega)
  split <;> omega

theorem to_base64_not_dot (bs : List Nat) : 46 ∉ to_base64 bs := by
  induction bs using to_base64.induct with
  | case1 => simp [to_base64]
  | case2 b0 =>
    simp only [to_base64, List.mem_cons, List.not_mem_nil, or_false]
    push_neg
    exact ⟨(b64char_ne_dot _).symm, (b64char_ne_dot _).symm⟩
  | case3 b0 b1 =>
    simp only [to_base64, List.mem_cons, List.not_mem_nil, or_false]
    push_neg
    exact ⟨(b64char_ne_dot _).symm, (b64char_ne_dot _).symm, (b64char_ne_dot _).symm⟩
  | case4 b0 b1 b2 rest ih =>
    simp only [to_base64, List.mem_cons]
    push_neg
    exact ⟨(b64char_ne_dot _).symm, (b64char_ne_dot _).symm, (b64char_ne_dot _).symm,
           (b64char_ne_dot _).symm, ih⟩

theorem to_base64_count_dot (bs : List Nat) : (to_base64 bs).count 46 = 0 :=
  List.count_eq_zero.mpr (to_base64_not_dot bs)

theorem sextets_none_of_dot : ∀ s : List Nat, 46 ∈ s → sextets s = none := by
  intro s
  induction s with
  | nil => simp
  | cons c r ih =>
    intro hmem
    by_cases hc : c = 46
    · subst hc
      simp [sextets, from_b64char]
    · have hr : 46 ∈ r := by
        rcases List.mem_cons.mp hmem with h | h
        · exact absurd h.symm hc
        · exact h
      rw [sextets]
      match hfc : from_b64char c with
      | none => rfl
      | some v => rw [ih hr]; rfl

theorem from_base64_of_dot (s : List Nat) (h : 46 ∈ s) : from_base64 s = none := by
  rw [from_base64, sextets_none_of_dot s h]
  rfl

theorem from_base64_nil : from_base64 ([] : List Nat) = some [] := rfl

theorem from_base64_to_base64 :
    ∀ bs : List Nat, (∀ b ∈ bs, b < 256) → from_base64 (to_base64 bs) = some bs := by
  intro bs
  induction bs using to_base64.induct with
  | case1 => intro _; rfl
  | case2 b0 =>
    intro hlt
    have h0 : b0 < 256 := hlt b0 (by simp)
    have e0 : from_b64char (b64char (b0 / 4)) = some (b0 / 4) :=
      from_b64char_b64char _ (by omega)
    have e1 : from_b64char (b64char (b0 % 4 * 16)) = some (b0 % 4 * 16) :=
      from_b64char_b64char _ (by omega)
    simp [to_base64, from_base64, sextets, e0, e1, unsextet]
    omega
  | case3 b0 b1 =>
    intro hlt
    have h0 : b0 < 256 := hlt b0 (by simp)
    have h1 : b1 < 256 := hlt b1 (by simp)
    have e0 : from_b64char (b64char (b0 / 4)) = some (b0 / 4) :=
      from_b64char_b64char _ (by omega)
    have e1 : from_b64char (b64char (b0 % 4 * 16 + b1 / 16)) = some (b0 % 4 * 16 + b1 / 16) :=
      from_b64char_b64char _ (by omega)
    have e2 : from_b64char (b64char (b1 % 16 * 4)) = some (b1 % 16 * 4) :=
      from_b64char_b64char _ (by omega)
    simp [to_base64, from_base64, sextets, e0, e1, e2, unsextet]
    omega
  | case4 b0 b1 b2 rest ih =>
    intro hlt
    have h0 : b0 < 256 := hlt b0 (by simp)
    have h1 : b1 < 256 := hlt b1 (by simp)
    have h2 : b2 < 256 := hlt b2 (by simp)
    have hrest : ∀ b ∈ rest, b < 256 := fun b hb => hlt b (by simp [hb])
    have hih := ih hrest
    rw [from_base64] at hih
    obtain ⟨ss, hss, hun⟩ : ∃ ss, sextets (to_base64 rest) = some ss ∧ unsextet ss = some rest := by
      match hs : sextets (to_base64 rest) with
      | none => rw [hs] at hih; simp at hih
      | some ss => rw [hs] at hih; exact ⟨ss, rfl, hih⟩
    have e0 : from_b64char (b64char (b0 / 4)) = some (b0 / 4) :=
      from_b64char_b64char _ (by omega)
    have e1 : from_b64char (b64char (b0 % 4 * 16 + b1 / 16)) = some (b0 % 4 * 16 + b1 / 16) :=
      from_b64char_b64char _ (by omega)
    have e2 : from_b64char (b64char (b1 % 16 * 4 + b2 / 64)) = some (b1 % 16 * 4 + b2 / 64) :=
      from_b64char_b64char _ (by omega)
    have e3 : from_b64char (b64char (b2 % 64)) = some (b2 % 64) :=
      from_b64char_b64char _ (by omega)
    simp [to_base64, from_base64, sextets, e0, e1, e2, e3, hss, unsextet, hun]
    omega

/-! ## Lemmas: digest shape -/

theorem wordBytes_length (x : Nat) : (wordBytes x).length = 4 := rfl

theorem wordBytes_lt (x : Nat) : ∀ b ∈ wordBytes x, b < 256 := by
  intro b hb
  simp only [wordBytes, List.mem_cons, List.not_mem_nil, or_false] at hb
  rcases hb with rfl | rfl | rfl | rfl <;> omega

theorem sha256_length (m : List Nat) : (sha256 m).length = 32 := by
  rw [sha256, sha256Digest]
  simp [wordBytes]

theorem sha256_lt (m : List Nat) : ∀ b ∈ sha256 m, b < 256 := by
  intro b hb
  rw [sha256, sha256Digest] at hb
  simp only [List.mem_append] at hb
  rcases hb with ((((((h | h) | h) | h) | h) | h) | h) | h <;>
    exact wordBytes_lt _ b h

theorem hmacSha256_length (k m : List Nat) : (hmacSha256 k m).length = 32 := by
  rw [hmacSha256]
  exact sha256_length _

theorem hmacSha256_lt (k m : List Nat) : ∀ b ∈ hmacSha256 k m, b < 256 := by
  rw [hmacSha256]
  exact sha256_lt _

/-! ## Lemmas: UTF-8 validity -/

theorem isValidUtf8_ascii_append (xs t : List Nat) (h : ∀ b ∈ xs, b < 128) :
    isValidUtf8 (xs ++ t) = isValidUtf8 t := by
  induction xs with
  | nil => rfl
  | cons x xs ih =>
    have hx : x < 128 := h x (by simp)
    rw [List.cons_append, isValidUtf8, if_pos hx]
    exact ih (fun b hb => h b (by simp [hb]))

theorem isValidUtf8_ascii (xs : List Nat) (h : ∀ b ∈ xs, b < 128) :
    isValidUtf8 xs = true := by
  have := isValidUtf8_ascii_append xs [] h
  rw [List.append_nil] at this
  rw [this]
  rfl

theorem isValidUtf8_append (a bs : List Nat)
    (hha : isValidUtf8 a = true) (hb : isValidUtf8 bs = true) :
    isValidUtf8 (a ++ bs) = true := by
  have H : ∀ (n : Nat) (a : List Nat), a.length ≤ n → isValidUtf8 a = true →
      isValidUtf8 (a ++ bs) = true := by
    intro n
    induction n with
    | zero =>
      intro a hlen ha
      have hnil : a = [] := List.eq_nil_of_length_eq_zero (by omega)
      subst hnil
      simpa using hb
    | succ n ih =>
      intro a hlen ha
      match a with
      | [] => simpa using hb
      | x :: r =>
        rw [isValidUtf8] at ha
        rw [List.cons_append, isValidUtf8]
        simp only [List.length_cons] at hlen
        by_cases h1 : x < 128
        · rw [if_pos h1] at ha ⊢
          exact ih r (by omega) ha
        rw [if_neg h1] at ha ⊢
        by_cases h2 : (194 ≤ x && x ≤ 223) = true
        · rw [if_pos h2] at ha ⊢
          match r with
          | [] => simp [utf8Cont1] at ha
          | c1 :: r2 =>
            rw [utf8Cont1] at ha
            rw [List.cons_append, utf8Cont1]
            simp only [Bool.and_eq_true] at ha ⊢
            exact ⟨ha.1, ih r2 (by simp at hlen; omega) ha.2⟩
        rw [if_neg h2] at ha ⊢
        by_cases h3 : x = 224
        · rw [if_pos h3] at ha ⊢
          match r with
          | [] => simp [utf8ContE0] at ha
          | [c1] => simp [utf8ContE0] at ha
          | c1 :: c2 :: r2 =>
            rw [utf8ContE0] at ha
            rw [List.cons_append, List.cons_append, utf8ContE0]
            simp only [Bool.and_eq_true] at ha ⊢
            exact ⟨ha.1, ih r2 (by simp at hlen; omega) ha.2⟩
        rw [if_neg h3] at ha ⊢
        by_cases h4 : ((225 ≤ x && x ≤ 236) || x = 238 || x = 239) = true
        · rw [if_pos h4] at ha ⊢
          match r with
          | [] => simp [utf8Cont2] at ha
          | [c1] => simp [utf8Cont2] at ha
          | c1 :: c2 :: r2 =>
            rw [utf8Cont2] at ha
            rw [List.cons_append, List.cons_append, utf8Cont2]
            simp only [Bool.and_eq_true] at ha ⊢
            exact ⟨ha.1, ih r2 (by simp at hlen; omega) ha.2⟩
        rw [if_neg h4] at ha ⊢
        by_cases h5 : x = 237
        · rw [if_pos h5] at ha ⊢
          match r with
          | [] => simp [utf8ContED] at ha
          | [c1] => simp [utf8ContED] at ha
          | c1 :: c2 :: r2 =>
            rw [utf8ContED] at ha
            rw [List.cons_append, List.cons_append, utf8ContED]
            simp only [Bool.and_eq_true] at ha ⊢
            exact ⟨ha.1, ih r2 (by simp at hlen; omega) ha.2⟩
        rw [if_neg h5] at ha ⊢
        by_cases h6 : x = 240
        · rw [if_pos h6] at ha ⊢
          match r with
          | [] => simp [utf8ContF0] at ha
          | [c1] => simp [utf8ContF0] at ha
          | [c1, c2] => simp [utf8ContF0] at ha
          | c1 :: c2 :: c3 :: r2 =>
            rw [utf8ContF0] at ha
            rw [List.cons_append, List.cons_append, List.cons_append, utf8ContF0]
            simp only [Bool.and_eq_true] at ha ⊢
            exact ⟨ha.1, ih r2 (by simp at hlen; omega) ha.2⟩
        rw [if_neg h6] at ha ⊢
        by_cases h7 : (241 ≤ x && x ≤ 243) = true
        · rw [if_pos h7] at ha ⊢
          match r with
          | [] => simp [utf8Cont3] at ha
          | [c1] => simp [utf8Cont3] at ha
          | [c1, c2] => simp [utf8Cont3] at ha
          | c1 :: c2 :: c3 :: r2 =>
            rw [utf8Cont3] at ha
            rw [List.cons_append, List.cons_append, List.cons_append, utf8Cont3]
            simp only [Bool.and_eq_true] at ha ⊢
            exact ⟨ha.1, ih r2 (by simp at hlen; omega) ha.2⟩
        rw [if_neg h7] at ha ⊢
        by_cases h8 : x = 244
        · rw [if_pos h8] at ha ⊢
          match r with
          | [] => simp [utf8ContF4] at ha
          | [c1] => simp [utf8ContF4] at ha
          | [c1, c2] => simp [utf8ContF4] at ha
          | c1 :: c2 :: c3 :: r2 =>
            rw [utf8ContF4] at ha
            rw [List.cons_append, List.cons_append, List.cons_append, utf8ContF4]
            simp only [Bool.and_eq_true] at ha ⊢
            exact ⟨ha.1, ih r2 (by simp at hlen; omega) ha.2⟩
        rw [if_neg h8] at ha ⊢
        exact absurd ha (by simp)
  exact H a.length a le_rfl hha

theorem isValidUtf8_lt_256 (s : List Nat) (hhs : isValidUtf8 s = true) :
    ∀ b ∈ s, b < 256 := by
  have H : ∀ (n : Nat) (a : List Nat), a.length ≤ n → isValidUtf8 a = true →
      ∀ b ∈ a, b < 256 := by
    intro n
    induction n with
    | zero =>
      intro a hlen _ b hb
      have hnil : a = [] := List.eq_nil_of_length_eq_zero (by omega)
      subst hnil
      simp at hb
    | succ n ih =>
      intro a hlen ha b hb
      match a with
      | [] => simp at hb
      | x :: r =>
        rw [isValidUtf8] at ha
        simp only [List.length_cons] at hlen
        simp only [List.mem_cons] at hb
        by_cases h1 : x < 128
        · rw [if_pos h1] at ha
          rcases hb with rfl | hb2
          · omega
          · exact ih r (by omega) ha b hb2
        rw [if_neg h1] at ha
        by_cases h2 : (194 ≤ x && x ≤ 223) = true
        · rw [if_pos h2] at ha
          simp only [Bool.and_eq_true, decide_eq_true_eq] at h2
          rcases r with _ | ⟨c1, r2⟩
          · simp [utf8Cont1] at ha
          · rw [utf8Cont1] at ha
            simp only [Bool.and_eq_true, isCont, decide_eq_true_eq] at ha
            simp only [List.mem_cons] at hb
            rcases hb with rfl | rfl | hb3
            · omega
            · omega
            · exact ih r2 (by simp at hlen; omega) ha.2 b hb3
        rw [if_neg h2] at ha
        by_cases h3 : x = 224
        · rw [if_pos h3] at ha
          rcases r with _ | ⟨c1, _ | ⟨c2, r2⟩⟩
          · simp [utf8ContE0] at ha
          · simp [utf8ContE0] at ha
          · rw [utf8ContE0] at ha
            simp only [Bool.and_eq_true, isCont, decide_eq_true_eq] at ha
            simp only [List.mem_cons] at hb
            rcases hb with rfl | rfl | rfl | hb3
            · omega
            · omega
            · omega
            · exact ih r2 (by simp at hlen; omega) ha.2 b hb3
        rw [if_neg h3] at ha
        by_cases h4 : ((225 ≤ x && x ≤ 236) || x = 238 || x = 239) = true
        · rw [if_pos h4] at ha
          simp only [Bool.or_eq_true, Bool.and_eq_true, decide_eq_true_eq] at h4
          rcases r with _ | ⟨c1, _ | ⟨c2, r2⟩⟩
          · simp [utf8Cont2] at ha
          · simp [utf8Cont2] at ha
          · rw [utf8Cont2] at ha
            simp only [Bool.and_eq_true, isCont, decide_eq_true_eq] at ha
            simp only [List.mem_cons] at hb
            rcases hb with rfl | rfl | rfl | hb3
            · omega
            · omega
            · omega
            · exact ih r2 (by simp at hlen; omega) ha.2 b hb3
        rw [if_neg h4] at ha
        by_cases h5 : x = 237
        · rw [if_pos h5] at ha
          rcases r with _ | ⟨c1, _ | ⟨c2, r2⟩⟩
          · simp [utf8ContED] at ha
          · simp [utf8ContED] at ha
          · rw [utf8ContED] at ha
            simp only [Bool.and_eq_true, isCont, decide_eq_true_eq] at ha
            simp only [List.mem_cons] at hb
            rcases hb with rfl | rfl | rfl | hb3
            · omega
            · omega
            · omega
            · exact ih r2 (by simp at hlen; omega) ha.2 b hb3
        rw [if_neg h5] at ha
        by_cases h6 : x = 240
        · rw [if_pos h6] at ha
          rcases r with _ | ⟨c1, _ | ⟨c2, _ | ⟨c3, r2⟩⟩⟩
          · simp [utf8ContF0] at ha
          · simp [utf8ContF0] at ha
          · simp [utf8ContF0] at ha
          · rw [utf8ContF0] at ha
            simp only [Bool.and_eq_true, isCont, decide_eq_true_eq] at ha
            simp only [List.mem_cons] at hb
            rcases hb with rfl | rfl | rfl | rfl | hb3
            · omega
            · omega
            · omega
            · omega
            · exact ih r2 (by simp at hlen; omega) ha.2 b hb3
        rw [if_neg h6] at ha
        by_cases h7 : (241 ≤ x && x ≤ 243) = true
        · rw [if_pos h7] at ha
          simp only [Bool.and_eq_true, decide_eq_true_eq] at h7
          rcases r with _ | ⟨c1, _ | ⟨c2, _ | ⟨c3, r2⟩⟩⟩
          · simp [utf8Cont3] at ha
          · simp [utf8Cont3] at ha
          · simp [utf8Cont3] at ha
          · rw [utf8Cont3] at ha
            simp only [Bool.and_eq_true, isCont, decide_eq_true_eq] at ha
            simp only [List.mem_cons] at hb
            rcases hb with rfl | rfl | rfl | rfl | hb3
            · omega
            · omega
            · omega
            · omega
            · exact ih r2 (by simp at hlen; omega) ha.2 b hb3
        rw [if_neg h7] at ha
        by_cases h8 : x = 244
        · rw [if_pos h8] at ha
          rcases r with _ | ⟨c1, _ | ⟨c2, _ | ⟨c3, r2⟩⟩⟩
          · simp [utf8ContF4] at ha
          · simp [utf8ContF4] at ha
          · simp [utf8ContF4] at ha
          · rw [utf8ContF4] at ha
            simp only [Bool.and_eq_true, isCont, decide_eq_true_eq] at ha
            simp only [List.mem_cons] at hb
            rcases hb with rfl | rfl | rfl | rfl | hb3
            · omega
            · omega
            · omega
            · omega
            · exact ih r2 (by simp at hlen; omega) ha.2 b hb3
        rw [if_neg h8] at ha
        exact absurd ha (by simp)
  exact H s.length s le_rfl hhs

theorem hexDigit_lt_128 (n : Nat) (h : n < 16) : hexDigit n < 128 := by
  unfold hexDigit
  split <;> omega

theorem escByte_ascii (b : Nat) (h : b < 128) : ∀ x ∈ escByte b, x < 128 := by
  have hd1 : hexDigit (b / 16) < 128 := hexDigit_lt_128 _ (by omega)
  have hd2 : hexDigit (b % 16) < 128 := hexDigit_lt_128 _ (by omega)
  intro x hx
  unfold escByte at hx
  split at hx
  · simp at hx; omega
  split at hx
  · simp at hx; omega
  split at hx
  · simp at hx; omega
  split at hx
  · simp at hx; omega
  split at hx
  · simp at hx; omega
  split at hx
  · simp at hx; omega
  split at hx
  · simp at hx; omega
  split at hx
  · simp at hx
    rcases hx with rfl | rfl | rfl | rfl | rfl | rfl <;> omega
  · simp at hx; omega

theorem escByte_high (b : Nat) (h : 128 ≤ b) : escByte b = [b] := by
  unfold escByte
  iterate 8 (split <;> try omega)
  rfl

theorem escapeStr_valid_append (s t : List Nat)
    (hhs : isValidUtf8 s = true) (ht : isValidUtf8 t = true) :
    isValidUtf8 (escapeStr s ++ t) = true := by
  have H : ∀ (n : Nat) (a : List Nat), a.length ≤ n → isValidUtf8 a = true →
      isValidUtf8 (escapeStr a ++ t) = true := by
    intro n
    induction n with
    | zero =>
      intro a hlen _
      have hnil : a = [] := List.eq_nil_of_length_eq_zero (by omega)
      subst hnil
      simpa [escapeStr] using ht
    | succ n ih =>
      intro a hlen ha
      match a with
      | [] => simpa [escapeStr] using ht
      | x :: r =>
        rw [isValidUtf8] at ha
        rw [escapeStr]
        simp only [List.length_cons] at hlen
        by_cases h1 : x < 128
        · rw [if_pos h1] at ha
          rw [List.append_assoc, isValidUtf8_ascii_append _ _ (escByte_ascii x h1)]
          exact ih r (by omega) ha
        rw [if_neg h1] at ha
        rw [escByte_high x (by omega)]
        by_cases h2 : (194 ≤ x && x ≤ 223) = true
        · rw [if_pos h2] at ha
          rcases r with _ | ⟨c1, r2⟩
          · simp [utf8Cont1] at ha
          · rw [utf8Cont1] at ha
            simp only [Bool.and_eq_true, isCont, decide_eq_true_eq] at ha
            rw [escapeStr, escByte_high c1 (by omega)]
            simp only [List.cons_append, List.nil_append, List.append_assoc]
            rw [isValidUtf8, if_neg h1, if_pos h2, utf8Cont1]
            simp only [Bool.and_eq_true, isCont, decide_eq_true_eq]
            refine ⟨⟨ha.1.1, ha.1.2⟩, ?_⟩
            have := ih r2 (by simp at hlen; omega) ha.2
            simpa using this
        rw [if_neg h2] at ha
        by_cases h3 : x = 224
        · rw [if_pos h3] at ha
          rcases r with _ | ⟨c1, _ | ⟨c2, r2⟩⟩
          · simp [utf8ContE0] at ha
          · simp [utf8ContE0] at ha
          · rw [utf8ContE0] at ha
            simp only [Bool.and_eq_true, isCont, decide_eq_true_eq] at ha
            rw [escapeStr, escByte_high c1 (by omega), escapeStr, escByte_high c2 (by omega)]
            simp only [List.cons_append, List.nil_append, List.append_assoc]
            rw [isValidUtf8, if_neg h1, if_neg h2, if_pos h3, utf8ContE0]
            simp only [Bool.and_eq_true, isCont, decide_eq_true_eq]
            refine ⟨⟨⟨ha.1.1.1, ha.1.1.2⟩, ha.1.2⟩, ?_⟩
            have := ih r2 (by simp at hlen; omega) ha.2
            simpa using this
        rw [if_neg h3] at ha
        by_cases h4 : ((225 ≤ x && x ≤ 236) || x = 238 || x = 239) = true
        · rw [if_pos h4] at ha
          rcases r with _ | ⟨c1, _ | ⟨c2, r2⟩⟩
          · simp [utf8Cont2] at ha
          · simp [utf8Cont2] at ha
          · rw [utf8Cont2] at ha
            simp only [Bool.and_eq_true, isCont, decide_eq_true_eq] at ha
            rw [escapeStr, escByte_high c1 (by omega), escapeStr, escByte_high c2 (by omega)]
            simp only [List.cons_append, List.nil_append, List.append_assoc]
            rw [isValidUtf8, if_neg h1, if_neg h2, if_neg h3, if_pos h4, utf8Cont2]
            simp only [Bool.and_eq_true, isCont, decide_eq_true_eq]
            refine ⟨⟨⟨ha.1.1.1, ha.1.1.2⟩, ha.1.2⟩, ?_⟩
            have := ih r2 (by simp at hlen; omega) ha.2
            simpa using this
        rw [if_neg h4] at ha
        by_cases h5 : x = 237
        · rw [if_pos h5] at ha
          rcases r with _ | ⟨c1, _ | ⟨c2, r2⟩⟩
          · simp [utf8ContED] at ha
          · simp [utf8ContED] at ha
          · rw [utf8ContED] at ha
            simp only [Bool.and_eq_true, isCont, decide_eq_true_eq] at ha
            rw [escapeStr, escByte_high c1 (by omega), escapeStr, escByte_high c2 (by omega)]
            simp only [List.cons_append, List.nil_append, List.append_assoc]
            rw [isValidUtf8, if_neg h1, if_neg h2, if_neg h3, if_neg h4, if_pos h5, utf8ContED]
            simp only [Bool.and_eq_true, isCont, decide_eq_true_eq]
            refine ⟨⟨⟨ha.1.1.1, ha.1.1.2⟩, ha.1.2⟩, ?_⟩
            have := ih r2 (by simp at hlen; omega) ha.2
            simpa using this
        rw [if_neg h5] at ha
        by_cases h6 : x = 240
        · rw [if_pos h6] at ha
          rcases r with _ | ⟨c1, _ | ⟨c2, _ | ⟨c3, r2⟩⟩⟩
          · simp [utf8ContF0] at ha
          · simp [utf8ContF0] at ha
          · simp [utf8ContF0] at ha
          · rw [utf8ContF0] at ha
            simp only [Bool.and_eq_true, isCont, decide_eq_true_eq] at ha
            rw [escapeStr, escByte_high c1 (by omega), escapeStr, escByte_high c2 (by omega),
                escapeStr, escByte_high c3 (by omega)]
            simp only [List.cons_append, List.nil_append, List.append_assoc]
            rw [isValidUtf8, if_neg h1, if_neg h2, if_neg h3, if_neg h4, if_neg h5, if_pos h6,
                utf8ContF0]
            simp only [Bool.and_eq_true, isCont, decide_eq_true_eq]
            refine ⟨⟨⟨⟨ha.1.1.1.1, ha.1.1.1.2⟩, ha.1.1.2⟩, ha.1.2⟩, ?_⟩
            have := ih r2 (by simp at hlen; omega) ha.2
            simpa using this
        rw [if_neg h6] at ha
        by_cases h7 : (241 ≤ x && x ≤ 243) = true
        · rw [if_pos h7] at ha
          rcases r with _ | ⟨c1, _ | ⟨c2, _ | ⟨c3, r2⟩⟩⟩
          · simp [utf8Cont3] at ha
          · simp [utf8Cont3] at ha
          · simp [utf8Cont3] at ha
          · rw [utf8Cont3] at ha
            simp only [Bool.and_eq_true, isCont, decide_eq_true_eq] at ha
            rw [escapeStr, escByte_high c1 (by omega), escapeStr, escByte_high c2 (by omega),
                escapeStr, escByte_high c3 (by omega)]
            simp only [List.cons_append, List.nil_append, List.append_assoc]
            rw [isValidUtf8, if_neg h1, if_neg h2, if_neg h3, if_neg h4, if_neg h5, if_neg h6,
                if_pos h7, utf8Cont3]
            simp only [Bool.and_eq_true, isCont, decide_eq_true_eq]
            refine ⟨⟨⟨⟨ha.1.1.1.1, ha.1.1.1.2⟩, ha.1.1.2⟩, ha.1.2⟩, ?_⟩
            have := ih r2 (by simp at hlen; omega) ha.2
            simpa using this
        rw [if_neg h7] at ha
        by_cases h8 : x = 244
        · rw [if_pos h8] at ha
          rcases r with _ | ⟨c1, _ | ⟨c2, _ | ⟨c3, r2⟩⟩⟩
          · simp [utf8ContF4] at ha
          · simp [utf8ContF4] at ha
          · simp [utf8ContF4] at ha
          · rw [utf8ContF4] at ha
            simp only [Bool.and_eq_true, isCont, decide_eq_true_eq] at ha
            rw [escapeStr, escByte_high c1 (by omega), escapeStr, escByte_high c2 (by omega),
                escapeStr, escByte_high c3 (by omega)]
            simp only [List.cons_append, List.nil_append, List.append_assoc]
            rw [isValidUtf8, if_neg h1, if_neg h2, if_neg h3, if_neg h4, if_neg h5, if_neg h6,
                if_neg h7, if_pos h8, utf8ContF4]
            simp only [Bool.and_eq_true, isCont, decide_eq_true_eq]
            refine ⟨⟨⟨⟨ha.1.1.1.1, ha.1.1.1.2⟩, ha.1.1.2⟩, ha.1.2⟩, ?_⟩
            have := ih r2 (by simp at hlen; omega) ha.2
            simpa using this
        rw [if_neg h8] at ha
        exact absurd ha (by simp)
  exact H s.length s le_rfl hhs

theorem valid_cons_lt (x : Nat) (xs : List Nat) (h : x < 128) :
    isValidUtf8 (x :: xs) = isValidUtf8 xs := by
  rw [isValidUtf8, if_pos h]

/-! ## Lemmas: decimal rendering -/

theorem natDecimal_digits (n : Nat) : ∀ x ∈ natDecimal n, 48 ≤ x ∧ x ≤ 57 := by
  intro x hx
  unfold natDecimal at hx
  split at hx
  · simp at hx; omega
  · simp only [List.mem_map, List.mem_reverse] at hx
    obtain ⟨d, hd, rfl⟩ := hx
    have := Nat.digits_lt_base (by omega) hd
    omega

theorem natDecimal_ne_nil (n : Nat) : natDecimal n ≠ [] := by
  unfold natDecimal
  split
  · simp
  · simp only [ne_eq, List.map_eq_nil_iff, List.reverse_eq_nil_iff]
    exact Nat.digits_ne_nil_iff_ne_zero.mpr (by omega)

theorem intDecimal_ascii (n : Int) : ∀ x ∈ intDecimal n, x < 128 := by
  intro x hx
  cases n with
  | ofNat m =>
    rw [intDecimal] at hx
    have := natDecimal_digits m x hx
    omega
  | negSucc m =>
    rw [intDecimal] at hx
    rcases List.mem_cons.mp hx with rfl | hx2
    · omega
    · have := natDecimal_digits (m + 1) x hx2
      omega

theorem intDecimal_ne_nil (n : Int) : intDecimal n ≠ [] := by
  cases n with
  | ofNat m => rw [intDecimal]; exact natDecimal_ne_nil m
  | negSucc m => rw [intDecimal]; simp

/-! ## Lemmas: the printer emits valid UTF-8 -/

mutual

theorem printJson_valid : ∀ (v : Json), jsonWF v = true → isValidUtf8 (printJson v) = true
  | .null, _ => by decide
  | .boolean true, _ => by decide
  | .boolean false, _ => by decide
  | .num n, _ => by
    rw [printJson]
    exact isValidUtf8_ascii _ (intDecimal_ascii n)
  | .str s, h => by
    rw [printJson, valid_cons_lt _ _ (by omega)]
    rw [jsonWF] at h
    exact escapeStr_valid_append s [34] h (by decide)
  | .arr [], _ => by decide
  | .arr (x :: xs), h => by
    rw [jsonWF, jsonListWF, Bool.and_eq_true] at h
    rw [printJson, valid_cons_lt _ _ (by omega)]
    exact isValidUtf8_append _ _
      (isValidUtf8_append _ _ (printJson_valid x h.1) (printElems_valid xs h.2))
      (by decide)
  | .obj [], _ => by decide
  | .obj ((k, v) :: r), h => by
    rw [jsonWF, Bool.and_eq_true, jsonObjWF, Bool.and_eq_true, Bool.and_eq_true] at h
    obtain ⟨_, ⟨hk, hv⟩, hr⟩ := h
    rw [printJson, valid_cons_lt _ _ (by omega)]
    refine isValidUtf8_append _ _
      (isValidUtf8_append _ _ (isValidUtf8_append _ _ ?_ (printJson_valid v hv))
        (printMembers_valid r hr))
      (by decide)
    rw [valid_cons_lt _ _ (by omega)]
    exact escapeStr_valid_append k [34, 58] hk (by decide)

theorem printElems_valid : ∀ (xs : List Json), jsonListWF xs = true →
    isValidUtf8 (printElems xs) = true
  | [], _ => by decide
  | x :: xs, h => by
    rw [jsonListWF, Bool.and_eq_true] at h
    rw [printElems, valid_cons_lt _ _ (by omega)]
    exact isValidUtf8_append _ _ (printJson_valid x h.1) (printElems_valid xs h.2)

theorem printMembers_valid : ∀ (o : List (ByteStr × Json)), jsonObjWF o = true →
    isValidUtf8 (printMembers o) = true
  | [], _ => by decide
  | (k, v) :: r, h => by
    rw [jsonObjWF, Bool.and_eq_true, Bool.and_eq_true] at h
    obtain ⟨⟨hk, hv⟩, hr⟩ := h
    rw [printMembers, valid_cons_lt _ _ (by omega)]
    refine isValidUtf8_append _ _
      (isValidUtf8_append _ _ ?_ (printJson_valid v hv)) (printMembers_valid r hr)
    rw [valid_cons_lt _ _ (by omega)]
    exact escapeStr_valid_append k [34, 58] hk (by decide)

end

theorem printJson_lt_256 (v : Json) (h : jsonWF v = true) :
    ∀ b ∈ printJson v, b < 256 :=
  isValidUtf8_lt_256 _ (printJson_valid v h)

/-! ## Lemmas: parser fuel bound -/

mutual

theorem sizeJ_le_print : ∀ (v : Json), sizeJ v ≤ (printJson v).length
  | .null => by simp [sizeJ, printJson]
  | .boolean true => by simp [sizeJ, printJson]
  | .boolean false => by simp [sizeJ, printJson]
  | .num n => by
    rw [sizeJ, printJson]
    have := intDecimal_ne_nil n
    cases hi : intDecimal n with
    | nil => exact absurd hi this
    | cons a l => simp
  | .str s => by simp [sizeJ, printJson]
  | .arr [] => by simp [sizeJ, sizeL, printJson]
  | .arr (x :: xs) => by
    have h1 := sizeJ_le_print x
    have h2 := sizeL_le_print xs
    simp only [sizeJ, sizeL, printJson, List.length_cons, List.length_append]
    simp
    omega
  | .obj [] => by simp [sizeJ, sizeO, printJson]
  | .obj ((k, v) :: r) => by
    have h1 := sizeJ_le_print v
    have h2 := sizeO_le_print r
    simp only [sizeJ, sizeO, printJson, List.length_cons, List.length_append]
    simp
    omega

theorem sizeL_le_print : ∀ (xs : List Json), sizeL xs ≤ (printElems xs).length
  | [] => by simp [sizeL, printElems]
  | x :: xs => by
    have h1 := sizeJ_le_print x
    have h2 := sizeL_le_print xs
    simp only [sizeL, printElems, List.length_cons, List.length_append]
    omega

theorem sizeO_le_print : ∀ (o : List (ByteStr × Json)), sizeO o ≤ (printMembers o).length
  | [] => by simp [sizeO, printMembers]
  | (k, v) :: r => by
    have h1 := sizeJ_le_print v
    have h2 := sizeO_le_print r
    simp only [sizeO, printMembers, List.length_cons, List.length_append]
    simp
    omega

end

/-! ## Lemmas: number parsing inverts decimal rendering -/

theorem parseNat_no_digit (acc : Nat) (rest : List Nat)
    (h : isDigit (rest.headD 93) = false) :
    parseNat acc rest = (acc, rest) := by
  cases rest with
  | nil => rfl
  | cons c r =>
    rw [parseNat]
    simp only [List.headD_cons] at h
    rw [if_neg (by simp [h])]

theorem parseNat_digits (ds : List Nat) (acc : Nat) (rest : List Nat)
    (hd : ∀ d ∈ ds, d < 10) (h : isDigit (rest.headD 93) = false) :
    parseNat acc (ds.map (fun d => 48 + d) ++ rest) =
      (ds.foldl (fun x d => x * 10 + d) acc, rest) := by
  induction ds generalizing acc with
  | nil => simpa using parseNat_no_digit acc rest h
  | cons d ds ih =>
    have hdd : d < 10 := hd d (by simp)
    simp only [List.map_cons, List.cons_append, List.foldl_cons]
    rw [parseNat, if_pos (by simp [isDigit]; omega)]
    have : 48 + d - 48 = d := by omega
    rw [this]
    exact ih _ (fun x hx => hd x (by simp [hx]))

theorem foldl_reverse_digits (L : List Nat) (a : Nat) :
    (L.reverse).foldl (fun x d => x * 10 + d) a =
      a * 10 ^ L.length + Nat.ofDigits 10 L := by
  induction L generalizing a with
  | nil => simp
  | cons d L ih =>
    simp only [List.reverse_cons, List.foldl_append, List.foldl_cons, List.foldl_nil,
               Nat.ofDigits_cons, List.length_cons]
    rw [ih a]
    ring

theorem parseNat_natDecimal (n : Nat) (rest : List Nat)
    (h : isDigit (rest.headD 93) = false) :
    parseNat 0 (natDecimal n ++ rest) = (n, rest) := by
  unfold natDecimal
  split
  · subst n
    simp only [List.cons_append, List.nil_append]
    rw [parseNat, if_pos (by simp [isDigit])]
    simpa using parseNat_no_digit 0 rest h
  · rw [parseNat_digits _ 0 rest
        (fun d hd => Nat.digits_lt_base (by omega) (List.mem_reverse.mp hd)) h]
    rw [foldl_reverse_digits]
    simp [Nat.ofDigits_digits]

/-! ## Lemmas: string parsing inverts escaping -/

theorem hexVal_hexDigit : ∀ x, x < 16 → hexVal (hexDigit x) = some x := by decide

theorem parseStringAux_escape (s rest : List Nat) :
    parseStringAux (escapeStr s ++ 34 :: rest) = some (s, rest) := by
  induction s with
  | nil =>
    rw [escapeStr, List.nil_append, parseStringAux, if_pos rfl]
  | cons b s ih =>
    rw [escapeStr, List.append_assoc]
    by_cases h34 : b = 34
    · subst h34
      rw [show escByte 34 = [92, 34] from rfl]
      simp only [List.cons_append, List.nil_append]
      rw [parseStringAux, if_neg (by omega), if_pos rfl]
      rw [parseEscape, if_pos (Or.inl rfl), ih]
      rfl
    by_cases h92 : b = 92
    · subst h92
      rw [show escByte 92 = [92, 92] from rfl]
      simp only [List.cons_append, List.nil_append]
      rw [parseStringAux, if_neg (by omega), if_pos rfl]
      rw [parseEscape, if_pos (Or.inr (Or.inl rfl)), ih]
      rfl
    by_cases h8 : b = 8
    · subst h8
      rw [show escByte 8 = [92, 98] from rfl]
      simp only [List.cons_append, List.nil_append]
      rw [parseStringAux, if_neg (by omega), if_pos rfl]
      rw [parseEscape, if_neg (by omega), if_pos rfl, ih]
      rfl
    by_cases h9 : b = 9
    · subst h9
      rw [show escByte 9 = [92, 116] from rfl]
      simp only [List.cons_append, List.nil_append]
      rw [parseStringAux, if_neg (by omega), if_pos rfl]
      rw [parseEscape, if_neg (by omega), if_neg (by omega), if_pos rfl, ih]
      rfl
    by_cases h10 : b = 10
    · subst h10
      rw [show escByte 10 = [92, 110] from rfl]
      simp only [List.cons_append, List.nil_append]
      rw [parseStringAux, if_neg (by omega), if_pos rfl]
      rw [parseEscape, if_neg (by omega), if_neg (by omega), if_neg (by omega),
          if_pos rfl, ih]
      rfl
    by_cases h12 : b = 12
    · subst h12
      rw [show escByte 12 = [92, 102] from rfl]
      simp only [List.cons_append, List.nil_append]
      rw [parseStringAux, if_neg (by omega), if_pos rfl]
      rw [parseEscape, if_neg (by omega), if_neg (by omega), if_neg (by omega),
          if_neg (by omega), if_pos rfl, ih]
      rfl
    by_cases h13 : b = 13
    · subst h13
      rw [show escByte 13 = [92, 114] from rfl]
      simp only [List.cons_append, List.nil_append]
      rw [parseStringAux, if_neg (by omega), if_pos rfl]
      rw [parseEscape, if_neg (by omega), if_neg (by omega), if_neg (by omega),
          if_neg (by omega), if_neg (by omega), if_pos rfl, ih]
      rfl
    by_cases hctl : b < 32
    · rw [show escByte b = [92, 117, 48, 48, hexDigit (b / 16), hexDigit (b % 16)] by
        unfold escByte
        rw [if_neg h34, if_neg h92, if_neg h8, if_neg h9, if_neg h10, if_neg h12,
            if_neg h13, if_pos hctl]]
      simp only [List.cons_append, List.nil_append]
      rw [parseStringAux, if_neg (by omega), if_pos rfl]
      rw [parseEscape, if_neg (by omega), if_neg (by omega), if_neg (by omega),
          if_neg (by omega), if_neg (by omega), if_neg (by omega), if_pos rfl]
      rw [parseUEscape]
      rw [show hexVal 48 = some 0 from rfl,
          hexVal_hexDigit (b / 16) (by omega), hexVal_hexDigit (b % 16) (by omega)]
      simp only [Option.some_bind]
      rw [if_neg (by omega), ih]
      simp [utf8Bytes,
            show b / 16 * 16 + b % 16 = b from by omega,
            show b < 128 from by omega]
    · rw [show escByte b = [b] by
        unfold escByte
        rw [if_neg h34, if_neg h92, if_neg h8, if_neg h9, if_neg h10, if_neg h12,
            if_neg h13, if_neg hctl]]
      simp only [List.cons_append, List.nil_append]
      rw [parseStringAux, if_neg h34, if_neg h92, ih]
      rfl

/-! ## Lemmas: the ordered claims map -/

theorem strLt_irrefl : ∀ s : ByteStr, strLt s s = false := by
  intro s
  induction s with
  | nil => rfl
  | cons a s ih => rw [strLt, if_neg (by omega), if_pos rfl]; exact ih

theorem strLt_asymm : ∀ a b : ByteStr, strLt a b = true → strLt b a = false := by
  intro a
  induction a with
  | nil =>
    intro b h
    cases b with
    | nil => simp [strLt] at h
    | cons y ys => rfl
  | cons x xs ih =>
    intro b h
    cases b with
    | nil => simp [strLt] at h
    | cons y ys =>
      rw [strLt] at h
      rw [strLt]
      by_cases hxy : x < y
      · rw [if_neg (by omega), if_neg (by omega)]
      · rw [if_neg hxy] at h
        by_cases heq : x = y
        · subst heq
          rw [if_pos rfl] at h
          rw [if_neg (by omega), if_pos rfl]
          exact ih ys h
        · rw [if_neg heq] at h
          simp at h

theorem strLt_ne (a b : ByteStr) (h : strLt a b = true) : a ≠ b := by
  intro heq
  subst heq
  rw [strLt_irrefl] at h
  exact Bool.false_ne_true h

theorem strLt_trans : ∀ a b c : ByteStr, strLt a b = true → strLt b c = true →
    strLt a c = true := by
  intro a
  induction a with
  | nil =>
    intro b c hab hbc
    cases b with
    | nil => simp [strLt] at hab
    | cons y ys =>
      cases c with
      | nil => simp [strLt] at hbc
      | cons z zs => rfl
  | cons x xs ih =>
    intro b c hab hbc
    cases b with
    | nil => simp [strLt] at hab
    | cons y ys =>
      cases c with
      | nil => simp [strLt] at hbc
      | cons z zs =>
        rw [strLt] at hab hbc ⊢
        by_cases hxy : x < y
        · rw [if_pos hxy] at hab
          by_cases hyz : y < z
          · rw [if_pos (by omega)]
          · rw [if_neg hyz] at hbc
            by_cases hyz2 : y = z
            · subst hyz2
              rw [if_pos hxy]
            · rw [if_neg hyz2] at hbc
              simp at hbc
        · rw [if_neg hxy] at hab
          by_cases hxy2 : x = y
          · subst hxy2
            rw [if_pos rfl] at hab
            by_cases hyz : x < z
            · rw [if_pos hyz]
            · rw [if_neg hyz] at hbc ⊢
              by_cases hyz2 : x = z
              · rw [if_pos hyz2] at hbc ⊢
                exact ih ys zs hab hbc
              · rw [if_neg hyz2] at hbc
                simp at hbc
          · rw [if_neg hxy2] at hab
            simp at hab

theorem objSorted_tail : ∀ (p : ByteStr × Json) (l : List (ByteStr × Json)),
    objSorted (p :: l) = true → objSorted l = true := by
  intro p l h
  cases l with
  | nil => rfl
  | cons q r =>
    obtain ⟨k1, v1⟩ := p
    obtain ⟨k2, v2⟩ := q
    rw [objSorted, Bool.and_eq_true] at h
    exact h.2

theorem objSorted_head_lt : ∀ (k1 : ByteStr) (v1 : Json) (l : List (ByteStr × Json)),
    objSorted ((k1, v1) :: l) = true → ∀ p ∈ l, strLt k1 p.1 = true := by
  intro k1 v1 l
  induction l generalizing k1 v1 with
  | nil => intro _ p hp; simp at hp
  | cons q r ih =>
    intro h p hp
    obtain ⟨k2, v2⟩ := q
    rw [objSorted, Bool.and_eq_true] at h
    rcases List.mem_cons.mp hp with rfl | hp2
    · exact h.1
    · exact strLt_trans _ _ _ h.1 (ih k2 v2 h.2 p hp2)

theorem objSorted_append_lt : ∀ (xs : List (ByteStr × Json)) (k : ByteStr) (v : Json)
    (r : List (ByteStr × Json)), objSorted (xs ++ (k, v) :: r) = true →
    ∀ p ∈ xs, strLt p.1 k = true := by
  intro xs
  induction xs with
  | nil => intro k v r _ p hp; simp at hp
  | cons q ys ih =>
    intro k v r h p hp
    obtain ⟨k1, v1⟩ := q
    rcases List.mem_cons.mp hp with rfl | hp2
    · exact objSorted_head_lt k1 v1 _ h (k, v) (by simp)
    · exact ih k v r (objSorted_tail _ _ h) p hp2

theorem objInsert_append (k : ByteStr) (v : Json) :
    ∀ (acc : List (ByteStr × Json)), (∀ p ∈ acc, strLt p.1 k = true) →
    objInsert k v acc = acc ++ [(k, v)] := by
  intro acc
  induction acc with
  | nil => intro _; rfl
  | cons q rest ih =>
    intro h
    obtain ⟨k2, v2⟩ := q
    have hlt : strLt k2 k = true := h (k2, v2) (by simp)
    rw [objInsert, if_neg (by rw [strLt_asymm k2 k hlt]; simp),
        if_neg (Ne.symm (strLt_ne k2 k hlt))]
    rw [ih (fun p hp => h p (by simp [hp]))]
    rfl

/-! ## Lemmas: parsing inverts printing -/

theorem sizeJ_pos : ∀ v : Json, 1 ≤ sizeJ v
  | .null => le_rfl
  | .boolean _ => le_rfl
  | .num _ => le_rfl
  | .str _ => le_rfl
  | .arr xs => by rw [sizeJ]; omega
  | .obj o => by rw [sizeJ]; omega

theorem printJson_head (v : Json) :
    ∃ h t, printJson v = h :: t ∧ h ≠ 93 := by
  cases v with
  | null => exact ⟨110, _, rfl, by omega⟩
  | boolean b => cases b with
    | true => exact ⟨116, _, rfl, by omega⟩
    | false => exact ⟨102, _, rfl, by omega⟩
  | num n =>
    cases n with
    | ofNat m =>
      rw [printJson, intDecimal]
      cases hnd : natDecimal m with
      | nil => exact absurd hnd (natDecimal_ne_nil m)
      | cons d ds =>
        have hd := natDecimal_digits m d (by rw [hnd]; simp)
        exact ⟨d, ds, rfl, by omega⟩
    | negSucc m =>
      rw [printJson, intDecimal]
      exact ⟨45, _, rfl, by omega⟩
  | str s => exact ⟨34, _, rfl, by omega⟩
  | arr xs =>
    cases xs with
    | nil => exact ⟨91, _, rfl, by omega⟩
    | cons x xs => exact ⟨91, _, rfl, by omega⟩
  | obj o =>
    cases o with
    | nil => exact ⟨123, _, rfl, by omega⟩
    | cons m r =>
      obtain ⟨k, v⟩ := m
      exact ⟨123, _, rfl, by omega⟩

theorem printElems_headD (xs : List Json) (rest : List Nat) :
    isDigit ((printElems xs ++ 93 :: rest).headD 93) = false := by
  cases xs with
  | nil => rfl
  | cons x xs => rfl

theorem printMembers_headD (o : List (ByteStr × Json)) (rest : List Nat) :
    isDigit ((printMembers o ++ 125 :: rest).headD 93) = false := by
  cases o with
  | nil => rfl
  | cons m r =>
    obtain ⟨k, v⟩ := m
    rfl


theorem parseNat_natDecimal_cons (m d : Nat) (ds rest : List Nat)
    (hnd : natDecimal m = d :: ds) (hrest : isDigit (rest.headD 93) = false) :
    parseNat (d - 48) (ds ++ rest) = (m, rest) := by
  have h := parseNat_natDecimal m rest hrest
  rw [hnd, List.cons_append, parseNat] at h
  have hd := natDecimal_digits m d (by rw [hnd]; simp)
  rw [if_pos (by simp [isDigit]; omega)] at h
  simpa using h

mutual

theorem parsePrint : ∀ (f : Nat) (v : Json) (rest : List Nat),
    sizeJ v ≤ f → jsonWF v = true → isDigit (rest.headD 93) = false →
    parseValue f (printJson v ++ rest) = some (v, rest)
  | 0, v, rest => by
    intro hf _ _
    have := sizeJ_pos v
    omega
  | g + 1, .null, rest => by
    intro _ _ _
    rw [printJson]
    simp only [List.cons_append, List.nil_append]
    rw [parseValue, if_pos rfl, parseNull]
  | g + 1, .boolean true, rest => by
    intro _ _ _
    rw [printJson]
    simp only [List.cons_append, List.nil_append]
    rw [parseValue, if_neg (by omega), if_pos rfl, parseTrue]
  | g + 1, .boolean false, rest => by
    intro _ _ _
    rw [printJson]
    simp only [List.cons_append, List.nil_append]
    rw [parseValue, if_neg (by omega), if_neg (by omega), if_pos rfl, parseFalse]
  | g + 1, .num (.ofNat m), rest => by
    intro _ _ hrest
    rw [printJson, intDecimal]
    cases hnd : natDecimal m with
    | nil => exact absurd hnd (natDecimal_ne_nil m)
    | cons d ds =>
      have hd := natDecimal_digits m d (by rw [hnd]; simp)
      simp only [List.cons_append]
      rw [parseValue, if_neg (by omega), if_neg (by omega), if_neg (by omega),
          if_neg (by omega), if_neg (by omega), if_pos (by simp [isDigit]; omega)]
      simp only []
      rw [parseNat_natDecimal_cons m d ds rest hnd hrest]
      rfl
  | g + 1, .num (.negSucc m), rest => by
    intro _ _ hrest
    rw [printJson, intDecimal]
    cases hnd : natDecimal (m + 1) with
    | nil => exact absurd hnd (natDecimal_ne_nil (m + 1))
    | cons d ds =>
      have hd := natDecimal_digits (m + 1) d (by rw [hnd]; simp)
      simp only [List.cons_append]
      rw [parseValue, if_neg (by omega), if_neg (by omega), if_neg (by omega),
          if_neg (by omega), if_pos rfl, parseNeg, if_pos (by simp [isDigit]; omega)]
      simp only []
      rw [parseNat_natDecimal_cons (m + 1) d ds rest hnd hrest]
      rfl
  | g + 1, .str s, rest => by
    intro _ _ _
    rw [printJson]
    simp only [List.cons_append, List.append_assoc, List.cons_append, List.nil_append]
    rw [parseValue, if_neg (by omega), if_neg (by omega), if_neg (by omega), if_pos rfl]
    rw [parseStringAux_escape]
    rfl
  | g + 1, .arr [], rest => by
    intro _ _ _
    rw [printJson]
    simp only [List.cons_append, List.nil_append]
    rw [parseValue, if_neg (by omega), if_neg (by omega), if_neg (by omega),
        if_neg (by omega), if_neg (by omega), if_neg (by simp [isDigit]), if_pos rfl]
    rw [parseArrBody, if_pos rfl]
  | g + 1, .arr (x :: xs), rest => by
    intro hf hwf _
    rw [printJson]
    simp only [List.cons_append, List.append_assoc, List.nil_append]
    rw [parseValue, if_neg (by omega), if_neg (by omega), if_neg (by omega),
        if_neg (by omega), if_neg (by omega), if_neg (by simp [isDigit]), if_pos rfl]
    obtain ⟨h, t, hpx, hne⟩ := printJson_head x
    rw [hpx]
    simp only [List.cons_append]
    rw [parseArrBody, if_neg hne]
    rw [← List.cons_append, ← hpx]
    rw [show printJson x ++ (printElems xs ++ 93 :: rest) =
          printJson x ++ printElems xs ++ 93 :: rest from (List.append_assoc _ _ _).symm]
    rw [sizeJ] at hf
    rw [jsonWF] at hwf
    rw [parseElemsPrint g x xs rest (by omega) hwf]
    rfl
  | g + 1, .obj [], rest => by
    intro _ _ _
    rw [printJson]
    simp only [List.cons_append, List.nil_append]
    rw [parseValue, if_neg (by omega), if_neg (by omega), if_neg (by omega),
        if_neg (by omega), if_neg (by omega), if_neg (by simp [isDigit]),
        if_neg (by omega), if_pos rfl]
    rw [parseObjBody, if_pos rfl]
  | g + 1, .obj ((k, v) :: r), rest => by
    intro hf hwf _
    rw [printJson]
    simp only [List.cons_append, List.append_assoc, List.nil_append]
    rw [parseValue, if_neg (by omega), if_neg (by omega), if_neg (by omega),
        if_neg (by omega), if_neg (by omega), if_neg (by simp [isDigit]),
        if_neg (by omega), if_pos rfl]
    rw [parseObjBody, if_neg (by omega)]
    rw [sizeJ] at hf
    rw [jsonWF, Bool.and_eq_true] at hwf
    have hcall := parseMembersPrint g [] k v r rest (by omega) hwf.2
      (by simpa using hwf.1)
    simp only [List.cons_append, List.append_assoc, List.nil_append] at hcall
    rw [hcall]
    rfl
termination_by f _ _ => f

theorem parseElemsPrint : ∀ (f : Nat) (x : Json) (xs : List Json) (rest : List Nat),
    sizeL (x :: xs) ≤ f → jsonListWF (x :: xs) = true →
    parseElems f (printJson x ++ printElems xs ++ 93 :: rest) = some (x :: xs, rest)
  | 0, x, xs, rest => by
    intro hf _
    rw [sizeL] at hf
    omega
  | g + 1, x, xs, rest => by
    intro hf hwf
    rw [sizeL] at hf
    rw [jsonListWF, Bool.and_eq_true] at hwf
    rw [parseElems]
    rw [List.append_assoc]
    rw [parsePrint g x (printElems xs ++ 93 :: rest) (by omega) hwf.1
        (printElems_headD xs rest)]
    simp only []
    cases xs with
    | nil =>
      simp only [printElems, List.nil_append]
      simp
    | cons y ys =>
      rw [printElems]
      simp only [List.cons_append, List.append_assoc]
      rw [if_pos trivial]
      rw [show printJson y ++ (printElems ys ++ 93 :: rest) =
            printJson y ++ printElems ys ++ 93 :: rest from (List.append_assoc _ _ _).symm]
      rw [parseElemsPrint g y ys rest (by rw [sizeL] at hf ⊢; omega) hwf.2]
      rfl
termination_by f _ _ _ => f

theorem parseMembersPrint : ∀ (f : Nat) (acc : List (ByteStr × Json)) (k : ByteStr)
    (v : Json) (r : List (ByteStr × Json)) (rest : List Nat),
    sizeO ((k, v) :: r) ≤ f → jsonObjWF ((k, v) :: r) = true →
    objSorted (acc ++ (k, v) :: r) = true →
    parseMembers f acc
      (34 :: (escapeStr k ++ [34, 58]) ++ printJson v ++ printMembers r ++ 125 :: rest) =
      some (acc ++ (k, v) :: r, rest)
  | 0, acc, k, v, r, rest => by
    intro hf _ _
    rw [sizeO] at hf
    omega
  | g + 1, acc, k, v, r, rest => by
    intro hf hwf hsort
    rw [sizeO] at hf
    rw [jsonObjWF, Bool.and_eq_true, Bool.and_eq_true] at hwf
    obtain ⟨⟨hk, hv⟩, hr⟩ := hwf
    rw [parseMembers.eq_def]
    simp only [List.cons_append, List.append_assoc, List.nil_append]
    rw [if_pos trivial]
    rw [parseStringAux_escape]
    simp only []
    rw [if_pos trivial]
    rw [parsePrint g v (printMembers r ++ 125 :: rest) (by omega) hv
        (printMembers_headD r rest)]
    simp only []
    have hins : objInsert k v acc = acc ++ [(k, v)] :=
      objInsert_append k v acc (objSorted_append_lt acc k v r hsort)
    cases r with
    | nil =>
      simp only [printMembers, List.nil_append]
      rw [if_pos trivial, hins]
      rw [if_neg (by omega)]
    | cons m r2 =>
      obtain ⟨k2, v2⟩ := m
      rw [printMembers]
      simp only [List.cons_append, List.append_assoc, List.nil_append]
      rw [if_pos trivial, hins]
      have hcall := parseMembersPrint g (acc ++ [(k, v)]) k2 v2 r2 rest
        (by rw [sizeO] at hf ⊢; omega) hr
        (by rw [List.append_assoc]; simpa using hsort)
      simp only [List.cons_append, List.append_assoc, List.nil_append] at hcall
      rw [hcall]
termination_by f _ _ _ _ _ => f

end


theorem json_from_str_print (v : Json) (h : jsonWF v = true) :
    json_from_str (printJson v) = some v := by
  have hp := parsePrint ((printJson v).length + 1) v []
    (by have := sizeJ_le_print v; omega) h (by rfl)
  rw [List.append_nil] at hp
  rw [json_from_str, hp]

/-! ## Lemmas: splitn -/

theorem splitFirst_not_mem (sep : Nat) : ∀ s : List Nat, sep ∉ s →
    splitFirst sep s = none := by
  intro s
  induction s with
  | nil => intro _; rfl
  | cons c r ih =>
    intro h
    rw [splitFirst, if_neg (by simp at h; omega), ih (by simp at h; exact fun hm => h.2 hm)]

theorem splitFirst_append (sep : Nat) (a rest : List Nat) (h : sep ∉ a) :
    splitFirst sep (a ++ sep :: rest) = some (a, rest) := by
  induction a with
  | nil => simp [splitFirst]
  | cons c r ih =>
    simp only [List.cons_append]
    rw [splitFirst, if_neg (by simp at h; omega),
        ih (fun hm => h (by simp [hm]))]

theorem splitn_two_step (m sep : Nat) (a rest : List Nat) (h : sep ∉ a) :
    splitn (m + 2) sep (a ++ sep :: rest) = a :: splitn (m + 1) sep rest := by
  rw [splitn, splitFirst_append sep a rest h]

theorem splitn_no_dot_step (m sep : Nat) (s : List Nat) (h : sep ∉ s) :
    splitn (m + 2) sep s = [s] := by
  rw [splitn, splitFirst_not_mem sep s h]

theorem splitn3_exact (a b c : List Nat) (ha : 46 ∉ a) (hb : 46 ∉ b) :
    splitn 3 46 (a ++ 46 :: (b ++ 46 :: c)) = [a, b, c] := by
  have h1 : splitn 3 46 (a ++ 46 :: (b ++ 46 :: c)) = a :: splitn 2 46 (b ++ 46 :: c) :=
    splitn_two_step 1 46 a (b ++ 46 :: c) ha
  have h2 : splitn 2 46 (b ++ 46 :: c) = b :: splitn 1 46 c :=
    splitn_two_step 0 46 b c hb
  rw [h1, h2]
  rfl

theorem splitn3_no_dot (s : List Nat) (h : 46 ∉ s) : splitn 3 46 s = [s] :=
  splitn_no_dot_step 1 46 s h

theorem splitn2_no_dot (s : List Nat) (h : 46 ∉ s) : splitn 2 46 s = [s] :=
  splitn_no_dot_step 0 46 s h

theorem mem_decomp (s : List Nat) (h : 46 ∈ s) :
    ∃ a r, s = a ++ 46 :: r ∧ 46 ∉ a := by
  induction s with
  | nil => simp at h
  | cons c t ih =>
    by_cases hc : c = 46
    · subst hc
      exact ⟨[], t, rfl, by simp⟩
    · have ht : 46 ∈ t := by
        rcases List.mem_cons.mp h with h2 | h2
        · exact absurd h2.symm hc
        · exact h2
      obtain ⟨a, r, rfl, hna⟩ := ih ht
      exact ⟨c :: a, r, rfl, by simp; exact ⟨fun he => hc he.symm, hna⟩⟩

theorem count_append_dot (a r : List Nat) (ha : 46 ∉ a) :
    (a ++ 46 :: r).count 46 = r.count 46 + 1 := by
  rw [List.count_append, List.count_cons_self, List.count_eq_zero.mpr ha]
  omega

/-! ## Lemmas: HMAC key normalization -/

theorem hmac_longkey (key m : List Nat) (h : 64 < key.length) :
    hmacSha256 key m = hmacSha256 (sha256 key) m := by
  rw [hmacSha256, hmacSha256, if_pos h, if_neg (by rw [sha256_length]; omega)]

/-! ## Lemmas: decoding an encoded token -/

theorem encode_shape (c : Claims) (k : List Nat) :
    hs256.encode c k =
      (hs256.HEADER ++ 46 :: c.to_base64) ++
        46 :: to_base64 (hmacSha256 k (hs256.HEADER ++ 46 :: c.to_base64)) := rfl

theorem header_no_dot : (46 : Nat) ∉ hs256.HEADER := by decide

theorem decode_encode_generic (c : Claims) (k1 k2 : List Nat)
    (hwf : ClaimsWF c = true)
    (hmac : hmacSha256 k2 (hs256.HEADER ++ 46 :: c.to_base64) =
            hmacSha256 k1 (hs256.HEADER ++ 46 :: c.to_base64)) :
    hs256.decode (hs256.encode c k1) k2 = .ok c := by
  rw [encode_shape]
  rw [hs256.decode, decode_generic]
  rw [List.append_assoc, List.cons_append]
  have hwf2 : jsonWF (Json.obj c.raw) = true := hwf
  have hb : (46 : Nat) ∉ c.to_base64 := to_base64_not_dot (printJson c.to_json)
  rw [splitn3_exact hs256.HEADER c.to_base64 _ header_no_dot hb]
  simp only []
  rw [from_base64_to_base64 _ (hmacSha256_lt k1 _)]
  simp only []
  rw [hmac]
  rw [show safe_cmp (hmacSha256 k1 (hs256.HEADER ++ 46 :: c.to_base64))
        (hmacSha256 k1 (hs256.HEADER ++ 46 :: c.to_base64)) = true from
      safe_cmp_self _]
  simp only [Bool.true_eq_false, if_false]
  rw [show c.to_base64 = to_base64 (printJson (Json.obj c.raw)) from rfl]
  rw [from_base64_to_base64 _ (printJson_lt_256 _ hwf2)]
  simp only []
  rw [printJson_valid _ hwf2]
  simp only [Bool.true_eq_false, if_false]
  rw [json_from_str_print _ hwf2]
  simp only [Json.as_object]


/-! ## Lemmas: decode on arbitrary three-segment input -/

theorem decode_split_cases (input key a b c : List Nat)
    (hsplit : splitn 3 46 input = [a, b, c]) :
    hs256.decode input key =
      (match from_base64 c with
      | none => .error .Malformed
      | some sig =>
        if safe_cmp sig (hmacSha256 key (a ++ 46 :: b)) = false then
          .error .InvalidSignature
        else
          match from_base64 b with
          | none => .error .Malformed
          | some payload_bytes =>
            if isValidUtf8 payload_bytes = false then .error .Malformed
            else
              match json_from_str payload_bytes with
              | none => .error .Malformed
              | some payload =>
                match payload.as_object with
                | none => .error .Malformed
                | some raw => .ok ⟨raw⟩) := by
  rw [hs256.decode, decode_generic, hsplit]

theorem decode_two_parts (input key a b : List Nat)
    (hsplit : splitn 3 46 input = [a, b]) :
    hs256.decode input key = .error .Malformed := by
  rw [hs256.decode, decode_generic, hsplit]

theorem decode_one_part (input key a : List Nat)
    (hsplit : splitn 3 46 input = [a]) :
    hs256.decode input key = .error .Malformed := by
  rw [hs256.decode, decode_generic, hsplit]

theorem decode_count_ne_two (input key : List Nat) (h : input.count 46 ≠ 2) :
    hs256.decode input key = .error .Malformed := by
  by_cases hmem : 46 ∈ input
  · obtain ⟨a, r, rfl, hna⟩ := mem_decomp input hmem
    by_cases hmem2 : 46 ∈ r
    · obtain ⟨b, r2, rfl, hnb⟩ := mem_decomp r hmem2
      have hcount : (a ++ 46 :: (b ++ 46 :: r2)).count 46 = r2.count 46 + 2 := by
        rw [count_append_dot a _ hna, count_append_dot b _ hnb]
      have hr2 : 46 ∈ r2 := by
        rw [hcount] at h
        rcases List.count_pos_iff.mp (show 0 < r2.count 46 by omega) with hm
        exact hm
      rw [decode_split_cases _ key a b r2 (splitn3_exact a b r2 hna hnb)]
      rw [from_base64_of_dot r2 hr2]
    · have hsplit : splitn 3 46 (a ++ 46 :: r) = [a, r] := by
        have h1 := splitn_two_step 1 46 a r hna
        rw [h1, splitn2_no_dot r hmem2]
      exact decode_two_parts _ key a r hsplit
  · exact decode_one_part _ key input (splitn3_no_dot input hmem)

/-! ## Lemmas: audience accessor -/

theorem collectStrings_iff : ∀ (xs : List Json) (l : List ByteStr),
    collectStrings xs = some l ↔ xs = l.map Json.str := by
  intro xs
  induction xs with
  | nil =>
    intro l
    cases l with
    | nil => simp [collectStrings]
    | cons s l2 => simp [collectStrings]
  | cons x xs ih =>
    intro l
    cases l with
    | nil =>
      simp only [collectStrings, List.map_nil]
      cases x <;> simp [Json.as_string]
    | cons s l2 =>
      simp only [collectStrings, List.map_cons]
      cases x <;> simp [Json.as_string]
      · rename_i s2
        cases hc : collectStrings xs with
        | none =>
          simp [hc]
          rintro - hxs
          have h2 := (ih l2).mpr hxs
          rw [hc] at h2
          simp at h2
        | some l3 =>
          simp [hc]
          rw [← ih l2, hc]
          simp
          tauto


/-! ## Claim theorems -/

/-- C1: for every Claims set C and every key K, decoding the HS256
encoding of C under K with the same key succeeds and returns a Claims set
structurally equal to C.  The hypothesis `ClaimsWF` states exactly the
invariants every Rust `Claims` value has by construction: strings are
valid UTF-8 and ordered maps have strictly ascending keys. -/
theorem claim_C1_roundtrip (c : Claims) (k : List Nat) (hwf : ClaimsWF c = true) :
    hs256.decode (hs256.encode c k) k = .ok c :=
  decode_encode_generic c k k hwf rfl

/-- Witness for C1 at the repository's test claims and key `secret`. -/
theorem claim_C1_witness :
    ClaimsWF testClaims = true ∧
      hs256.decode (hs256.encode testClaims secretKey) secretKey = .ok testClaims :=
  ⟨by decide, claim_C1_roundtrip testClaims secretKey (by decide)⟩

/-- C2: on any input that splits into three dot-separated segments,
decode recomputes the expected MAC with HMAC-SHA256 over the raw bytes of
the first two segments joined by a literal dot, compares it to the
base64url-decoded third segment with the constant-time comparator, and
does so strictly before any payload decoding: a signature-segment decode
failure is `Malformed`, a failed comparison is `InvalidSignature`
regardless of the payload, and only after a successful comparison is the
result determined by the payload pipeline. -/
theorem claim_C2_mac_over_raw_segments (input key a b c : List Nat)
    (hsplit : splitn 3 46 input = [a, b, c]) :
    (from_base64 c = none → hs256.decode input key = .error .Malformed) ∧
    (∀ sig, from_base64 c = some sig →
      safe_cmp sig (hmacSha256 key (a ++ 46 :: b)) = false →
      hs256.decode input key = .error .InvalidSignature) ∧
    (∀ sig, from_base64 c = some sig →
      safe_cmp sig (hmacSha256 key (a ++ 46 :: b)) = true →
      hs256.decode input key =
        (match from_base64 b with
        | none => .error .Malformed
        | some payload_bytes =>
          if isValidUtf8 payload_bytes = false then .error .Malformed
          else
            match json_from_str payload_bytes with
            | none => .error .Malformed
            | some payload =>
              match payload.as_object with
              | none => .error .Malformed
              | some raw => .ok ⟨raw⟩)) := by
  refine ⟨?_, ?_, ?_⟩
  · intro hc
    rw [decode_split_cases input key a b c hsplit, hc]
  · intro sig hc hcmp
    rw [decode_split_cases input key a b c hsplit, hc]
    simp only []
    rw [if_pos hcmp]
  · intro sig hc hcmp
    rw [decode_split_cases input key a b c hsplit, hc]
    simp only []
    rw [if_neg (by rw [hcmp]; simp)]

/-- Witness for C2 on the token `AA.BB.CC` whose one-byte signature can
never match the 32-byte MAC. -/
theorem claim_C2_witness :
    hs256.decode [65, 65, 46, 66, 66, 46, 67, 67] [107, 49] = .error .InvalidSignature :=
  (claim_C2_mac_over_raw_segments [65, 65, 46, 66, 66, 46, 67, 67] [107, 49]
      [65, 65] [66, 66] [67, 67] (by decide)).2.1 [8] (by decide)
    (safe_cmp_length_ne _ _ (by rw [hmacSha256_length]; decide))

/-- C3: for a three-segment input, which of the two decode errors
surfaces is gated only by the signature segment's decodability: an
undecodable third segment gives `Malformed`, a decodable third segment
with a failed MAC comparison gives `InvalidSignature`, and once the
signature is accepted every remaining failure (payload base64, UTF-8,
JSON, non-object) surfaces as `Malformed`, never `InvalidSignature`. -/
theorem claim_C3_error_gating (input key a b c : List Nat)
    (hsplit : splitn 3 46 input = [a, b, c]) :
    (from_base64 c = none → hs256.decode input key = .error .Malformed) ∧
    (∀ sig, from_base64 c = some sig →
      safe_cmp sig (hmacSha256 key (a ++ 46 :: b)) = false →
      hs256.decode input key = .error .InvalidSignature) ∧
    (∀ sig, from_base64 c = some sig →
      safe_cmp sig (hmacSha256 key (a ++ 46 :: b)) = true →
      ∀ e, hs256.decode input key = .error e → e = .Malformed) := by
  refine ⟨?_, ?_, ?_⟩
  · intro hc
    rw [decode_split_cases input key a b c hsplit, hc]
  · intro sig hc hcmp
    rw [decode_split_cases input key a b c hsplit, hc]
    simp only []
    rw [if_pos hcmp]
  · intro sig hc hcmp e he
    rw [decode_split_cases input key a b c hsplit, hc] at he
    simp only [] at he
    rw [if_neg (by rw [hcmp]; simp)] at he
    split at he
    · injection he with h
      exact h.symm
    · split at he
      · injection he with h
        exact h.symm
      · split at he
        · injection he with h
          exact h.symm
        · split at he
          · injection he with h
            exact h.symm
          · exact absurd he (by simp)

/-- Witness for C3 on the token `EE.FF.GG`: the third segment decodes, so
the failure is `InvalidSignature`, not `Malformed`. -/
theorem claim_C3_witness :
    hs256.decode [69, 69, 46, 70, 70, 46, 71, 71] [107, 50] = .error .InvalidSignature :=
  (claim_C3_error_gating [69, 69, 46, 70, 70, 46, 71, 71] [107, 50]
      [69, 69] [70, 70] [71, 71] (by decide)).2.1 [24] (by decide)
    (safe_cmp_length_ne _ _ (by rw [hmacSha256_length]; decide))

/-- C4: `safe_cmp` returns true iff the two byte sequences are equal; in
particular differing lengths give false, and equal lengths give true
exactly when all corresponding bytes agree. -/
theorem claim_C4_safe_cmp (a b : List Nat) :
    (safe_cmp a b = true ↔ a = b) ∧ (a.length ≠ b.length → safe_cmp a b = false) :=
  ⟨safe_cmp_iff a b, safe_cmp_length_ne a b⟩

/-- Witness for C4: equal sequences compare true, a differing byte and a
length mismatch compare false. -/
theorem claim_C4_witness :
    safe_cmp [1, 2, 255] [1, 2, 255] = true ∧ safe_cmp [1, 2] [1, 3] = false ∧
      safe_cmp [1] [1, 0] = false := by
  refine ⟨(claim_C4_safe_cmp [1, 2, 255] [1, 2, 255]).1.mpr rfl, ?_, ?_⟩
  · cases hsc : safe_cmp [1, 2] [1, 3] with
    | false => rfl
    | true => exact absurd ((claim_C4_safe_cmp [1, 2] [1, 3]).1.mp hsc) (by decide)
  · exact (claim_C4_safe_cmp [1] [1, 0]).2 (by decide)

/-- C5: every input that does not consist of exactly three dot-separated
segments (equivalently, whose dot count is not exactly two) fails with
`Malformed` and never succeeds. -/
theorem claim_C5_structural_reject (input key : List Nat) (h : input.count 46 ≠ 2) :
    hs256.decode input key = .error .Malformed :=
  decode_count_ne_two input key h

/-- Witness for C5 on a four-segment input and a one-segment input. -/
theorem claim_C5_witness :
    hs256.decode [65, 46, 66, 46, 67, 46, 68] [1] = .error .Malformed ∧
      hs256.decode [65, 66] [1] = .error .Malformed :=
  ⟨claim_C5_structural_reject _ _ (by decide),
   claim_C5_structural_reject _ _ (by decide)⟩

/-- C6: HS256 encode is total and returns exactly
`header64 ++ "." ++ base64url(compact JSON of the claims) ++ "." ++
base64url(HMAC-SHA256(key, header64 ++ "." ++ payload64))`, where the
fixed header constant is the base64url encoding of the literal JSON text
of the object announcing alg HS256 and typ JWT. -/
theorem claim_C6_encode_shape (c : Claims) (k : List Nat) :
    hs256.encode c k =
      (hs256.HEADER ++ 46 :: to_base64 (printJson (Json.obj c.raw))) ++
        46 :: to_base64 (hmacSha256 k
          (hs256.HEADER ++ 46 :: to_base64 (printJson (Json.obj c.raw)))) ∧
    hs256.HEADER = to_base64 headerJsonText :=
  ⟨rfl, by decide⟩

/-- C7: the `aud` accessor returns a list exactly when the claim is
present, is an array, and every element is a string — the returned list
being precisely those strings; otherwise (absent, non-array, or any
non-string element) it returns none, never a partial list. -/
theorem claim_C7_aud (c : Claims) (l : List ByteStr) :
    c.aud = some l ↔
      ∃ xs, c.get audKey = some (Json.arr xs) ∧ xs = l.map Json.str := by
  rw [Claims.aud, Claims.get]
  cases hg : objGet audKey c.raw with
  | none => simp
  | some j =>
    cases j <;> simp [Json.as_array]
    rename_i xs
    rw [collectStrings_iff xs l]

/-- Witness for C7: `["a","b"]` yields the two strings, `["a", 1]`
yields none. -/
theorem claim_C7_witness :
    (Claims.mk [(audKey, .arr [.str [97], .str [98]])]).aud = some [[97], [98]] ∧
      (Claims.mk [(audKey, .arr [.str [97], .num 1])]).aud = none :=
  ⟨(claim_C7_aud (Claims.mk [(audKey, .arr [.str [97], .str [98]])]) [[97], [98]]).mpr
     ⟨[.str [97], .str [98]], rfl, rfl⟩,
   by decide⟩

/-- C8 counterexample: the claim "decode(encode(C, K1), K2) fails with
InvalidSignature whenever K1 is not K2" is false on the code: HMAC-SHA256
hashes keys longer than its 64-byte block, so a 65-byte key and its
SHA-256 digest are distinct keys producing identical MACs, and decoding
succeeds. -/
theorem claim_C8_counterexample :
    longKey ≠ collidingKey ∧
      hs256.decode (hs256.encode (Claims.mk []) longKey) collidingKey =
        .ok (Claims.mk []) := by
  constructor
  · intro h
    have hl := congrArg List.length h
    rw [show collidingKey = sha256 longKey from rfl, sha256_length] at hl
    simp [longKey] at hl
  · exact decode_encode_generic (Claims.mk []) longKey collidingKey (by decide)
      (by rw [show collidingKey = sha256 longKey from rfl,
              ← hmac_longkey longKey _ (by decide)])

/-- C8 (amended): decode(encode(C, K1), K2) fails with `InvalidSignature`
whenever the HMAC-SHA256 MACs of the signing input under K1 and K2
differ — which is how "K1 differs from K2" manifests at the MAC level;
distinct keys with equal MACs (such as a long key and its digest) are the
only exception. -/
theorem claim_C8_wrong_key (c : Claims) (k1 k2 : List Nat)
    (hne : hmacSha256 k2 (hs256.HEADER ++ 46 :: c.to_base64) ≠
           hmacSha256 k1 (hs256.HEADER ++ 46 :: c.to_base64)) :
    hs256.decode (hs256.encode c k1) k2 = .error .InvalidSignature := by
  have hb : (46 : Nat) ∉ c.to_base64 := to_base64_not_dot (printJson c.to_json)
  have hsplit : splitn 3 46 (hs256.encode c k1) =
      [hs256.HEADER, c.to_base64,
       to_base64 (hmacSha256 k1 (hs256.HEADER ++ 46 :: c.to_base64))] := by
    rw [encode_shape, List.append_assoc, List.cons_append]
    exact splitn3_exact _ _ _ header_no_dot hb
  rw [decode_split_cases _ k2 _ _ _ hsplit]
  rw [from_base64_to_base64 _ (hmacSha256_lt k1 _)]
  simp only []
  have hcmp : safe_cmp (hmacSha256 k1 (hs256.HEADER ++ 46 :: c.to_base64))
      (hmacSha256 k2 (hs256.HEADER ++ 46 :: c.to_base64)) = false := by
    cases hsc : safe_cmp (hmacSha256 k1 (hs256.HEADER ++ 46 :: c.to_base64))
        (hmacSha256 k2 (hs256.HEADER ++ 46 :: c.to_base64)) with
    | false => rfl
    | true => exact absurd ((safe_cmp_iff _ _).mp hsc) (fun he => hne he.symm)
  rw [if_pos hcmp]

set_option maxRecDepth 100000 in
set_option maxHeartbeats 1000000 in
/-- Witness for the amended C8 at the keys `[0]` and `[1]` and the empty
claims set, whose MACs indeed differ. -/
theorem claim_C8_witness :
    hs256.decode (hs256.encode (Claims.mk []) [0]) [1] = .error .InvalidSignature :=
  claim_C8_wrong_key (Claims.mk []) [0] [1] (by decide)

/-- C9: a token whose third segment is empty decodes the empty signature
successfully (to the empty byte sequence), whose length can never equal
the 32-byte recomputed HMAC-SHA256 tag, so decode returns
`InvalidSignature`, not `Malformed`. -/
theorem claim_C9_empty_signature (a b key : List Nat) (ha : 46 ∉ a) (hb : 46 ∉ b) :
    (hmacSha256 key (a ++ 46 :: b)).length = 32 ∧
      hs256.decode (a ++ 46 :: (b ++ [46])) key = .error .InvalidSignature := by
  refine ⟨hmacSha256_length key _, ?_⟩
  have hsplit : splitn 3 46 (a ++ 46 :: (b ++ [46])) = [a, b, []] :=
    splitn3_exact a b [] ha hb
  rw [decode_split_cases _ key a b [] hsplit, from_base64_nil]
  simp only []
  rw [if_pos (safe_cmp_length_ne _ _ (by rw [hmacSha256_length]; decide))]

/-- Witness for C9 on the token `A.B.` with key `[5]`. -/
theorem claim_C9_witness :
    hs256.decode [65, 46, 66, 46] [5] = .error .InvalidSignature :=
  (claim_C9_empty_signature [65] [66] [5] (by decide) (by decide)).2

/-- C10: every HS256-encoded token contains exactly two dots (the header
constant and the base64url alphabet are dot-free), so it splits into
exactly the three segments header, payload and signature and passes
decode's structural check. -/
theorem claim_C10_two_dots (c : Claims) (k : List Nat) :
    (hs256.encode c k).count 46 = 2 ∧
      splitn 3 46 (hs256.encode c k) =
        [hs256.HEADER, c.to_base64,
         to_base64 (hmacSha256 k (hs256.HEADER ++ 46 :: c.to_base64))] := by
  have hb : (46 : Nat) ∉ c.to_base64 := to_base64_not_dot (printJson c.to_json)
  constructor
  · rw [encode_shape, List.append_assoc, List.cons_append]
    rw [count_append_dot _ _ header_no_dot, count_append_dot _ _ hb]
    rw [List.count_eq_zero.mpr (to_base64_not_dot _)]
  · rw [encode_shape, List.append_assoc, List.cons_append]
    exact splitn3_exact _ _ _ header_no_dot hb

end Jwt
